import Mathlib

/-!
Verification of the openr netlink System Handler and its in-memory protocol
socket test double.

The development shallowly embeds three source files:
* `NetlinkSystemHandler.cpp` — the RPC-facing handler (get-all-links,
  add/remove/get/sync interface addresses, getIfIndex);
* `FakeNetlinkProtocolSocket.cpp` — the in-memory test double backing the
  handler in tests (links_, ifAddrs_, unicastRoutes_, mplsRoutes_);
* `NetlinkMessage.h` — the base message frame with its per-object-kind
  receive callbacks.

C++ maps (`std::map` / `std::unordered_map`) are modelled as association
lists kept in insertion order; `operator[]` assignment updates the entry in
place, `emplace` appends only when the key is absent. C++ exceptions that
can escape a handler operation are modelled with `Except CppError`.
-/

namespace openr

/-! ## Platform constants (errno.h, socket.h, linux/rtnetlink.h) -/

def ESRCH : Int := 3
/-- Errno `ENXIOerr` models `ENXIO` (6, "No such device or address"). -/
def ENXIOerr : Int := 6
def EEXIST : Int := 17
def EADDRNOTAVAIL : Int := 99

def AF_INET : Nat := 2
def AF_INET6 : Nat := 10
def AF_MPLS : Nat := 28

def RT_SCOPE_UNIVERSE : Nat := 0
def RT_SCOPE_LINK : Nat := 253
def RT_SCOPE_HOST : Nat := 254

def IFF_RUNNING : Nat := 64
def IFF_LOOPBACK : Nat := 8

/-! ## Object model -/

/-- Model of a `folly::IPAddress`: we carry exactly the observables the
embedded code uses — address family, the loopback / link-local
classification, and the raw value that decides equality. -/
structure IpAddr where
  family : Nat
  isLoopback : Bool
  isLinkLocal : Bool
  val : Nat
deriving DecidableEq, Repr

/-- `folly::CIDRNetwork` and `thrift::IpPrefix` both carry an address and a
prefix length; conversions between them made by the handler
(`toIpPrefix` / `toIPNetwork` with `applyMask = false`) preserve both
fields, so one Lean type serves for the two. -/
structure IpPrefix where
  addr : IpAddr
  prefixLength : Nat
deriving DecidableEq, Repr

/-- `toIpPrefix` converts a `folly::CIDRNetwork` to a `thrift::IpPrefix`. -/
def toIpPrefix (network : IpPrefix) : IpPrefix := network

/-- `toIPNetwork(addr, false /* applyMask */)`: with masking disabled the
address and prefix length pass through unchanged. -/
def toIPNetwork (p : IpPrefix) : IpPrefix := p

/-- `fbnl::IfAddress` as built by `IfAddressBuilder`
(setIfIndex / setPrefix / setScope). -/
structure IfAddress where
  ifIndex : Int
  getPrefix : Option IpPrefix
  scope : Nat
deriving DecidableEq, Repr

/-- `IfAddress::getFamily()`: the family of the stored prefix
(`AF_UNSPEC = 0` when no prefix was set). -/
def IfAddress.getFamily (a : IfAddress) : Nat :=
  match a.getPrefix with
  | some p => p.addr.family
  | none => 0

/-- `fbnl::Link` (ifIndex, name, flag bits). -/
structure Link where
  ifIndex : Int
  linkName : String
  flags : Nat
deriving DecidableEq, Repr

/-- `Link::isUp()`: the `IFF_RUNNING` bit of the flags. -/
def Link.isUp (l : Link) : Bool := l.flags &&& IFF_RUNNING ≠ 0

/-- `fbnl::Neighbor` (§3 of the design: ifIndex, destination IP, link-layer
address, state). -/
structure Neighbor where
  ifIndex : Int
  destination : IpAddr
  linkAddress : Nat
  state : Nat
deriving DecidableEq, Repr

/-- `fbnl::Route` as used by the fake socket: protocol id, family,
destination (keyed for non-MPLS), optional MPLS label, type, next-hops. -/
structure Route where
  protocolId : Nat
  family : Nat
  getDestination : IpPrefix
  mplsLabel : Option Nat
  routeType : Nat
  nextHops : List Nat
deriving DecidableEq, Repr

/-- C++ exceptions that a handler operation can surface to its caller.
`nlException` is `fbnl::NlException` carrying an errno-like code;
`badOptionalAccess` is `std::bad_optional_access` from `optional::value()`;
`outOfRange` is `std::out_of_range` from `map::at()`. `notFound` is never
produced by any embedded code path: it stands for the specification's
"explicit not-found result" vocabulary so that claims about error
discrimination can be stated against the code's actual behavior. -/
inductive CppError
  | nlException (code : Int)
  | badOptionalAccess
  | outOfRange
  | notFound
deriving DecidableEq, Repr

/-! ## Association lists modelling the C++ maps -/

/-- `m.find(k)` / `m.count(k)`: value of the first entry with key `k`. -/
def alistGet {κ α : Type} [DecidableEq κ] (k : κ) : List (κ × α) → Option α
  | [] => none
  | (k1, v) :: rest => if k1 = k then some v else alistGet k rest

/-- `m[k] = v`: update the entry in place when the key is present, append
a new entry otherwise. -/
def alistInsert {κ α : Type} [DecidableEq κ] (k : κ) (v : α) :
    List (κ × α) → List (κ × α)
  | [] => [(k, v)]
  | (k1, v1) :: rest =>
    if k1 = k then (k, v) :: rest else (k1, v1) :: alistInsert k v rest

/-- `m.emplace(k, v)`: insert only when the key is absent. -/
def alistEmplace {κ α : Type} [DecidableEq κ] (k : κ) (v : α)
    (l : List (κ × α)) : List (κ × α) :=
  if (alistGet k l).isSome then l else l ++ [(k, v)]

/-- Mutate the value stored under `k` in place (models taking a reference
into the map and modifying through it). -/
def alistModify {κ α : Type} [DecidableEq κ] (k : κ) (f : α → α) :
    List (κ × α) → List (κ × α)
  | [] => []
  | (k1, v1) :: rest =>
    if k1 = k then (k1, f v1) :: rest else (k1, v1) :: alistModify k f rest

/-- `m.erase(k)`: drop the first entry with key `k`. -/
def alistErase {κ α : Type} [DecidableEq κ] (k : κ) :
    List (κ × α) → List (κ × α)
  | [] => []
  | (k1, v1) :: rest => if k1 = k then rest else (k1, v1) :: alistErase k rest

/-! ## The fake protocol socket state -/

/-- The four in-memory tables of `FakeNetlinkProtocolSocket`. -/
structure FakeState where
  links : List (Int × Link)
  ifAddrs : List (Int × List IfAddress)
  unicastRoutes : List (Nat × List (IpPrefix × Route))
  mplsRoutes : List (Nat × List (Nat × Route))
deriving DecidableEq, Repr

def FakeState.empty : FakeState := ⟨[], [], [], []⟩

namespace FakeNetlinkProtocolSocket

/-- `FakeNetlinkProtocolSocket::addRoute`: blindly replace the existing
route keyed by (protocolId, mplsLabel) for `AF_MPLS` and by
(protocolId, destination) otherwise; resolve with 0. A missing MPLS
label makes `getMplsLabel().value()` throw. -/
def addRoute (st : FakeState) (route : Route) :
    Except CppError (FakeState × Int) :=
  let proto := route.protocolId
  if route.family = AF_MPLS then
    match route.mplsLabel with
    | none => .error .badOptionalAccess
    | some lbl =>
      let inner := (alistGet proto st.mplsRoutes).getD []
      .ok ({ st with
              mplsRoutes :=
                alistInsert proto (alistInsert lbl route inner) st.mplsRoutes },
           0)
  else
    let inner := (alistGet proto st.unicastRoutes).getD []
    .ok ({ st with
            unicastRoutes :=
              alistInsert proto (alistInsert route.getDestination route inner)
                st.unicastRoutes },
         0)

/-- `FakeNetlinkProtocolSocket::deleteRoute`: erase by the same key and
count the erased entries; resolve with 0 when one was erased, `ESRCH`
otherwise. The outer `operator[]` default-constructs the inner map even
on the delete path. -/
def deleteRoute (st : FakeState) (route : Route) :
    Except CppError (FakeState × Int) :=
  let proto := route.protocolId
  if route.family = AF_MPLS then
    match route.mplsLabel with
    | none => .error .badOptionalAccess
    | some lbl =>
      let inner := (alistGet proto st.mplsRoutes).getD []
      let cnt : Nat := if (alistGet lbl inner).isSome then 1 else 0
      .ok ({ st with
              mplsRoutes :=
                alistInsert proto (alistErase lbl inner) st.mplsRoutes },
           if cnt ≠ 0 then 0 else ESRCH)
  else
    let inner := (alistGet proto st.unicastRoutes).getD []
    let cnt : Nat := if (alistGet route.getDestination inner).isSome then 1 else 0
    .ok ({ st with
            unicastRoutes :=
              alistInsert proto (alistErase route.getDestination inner)
                st.unicastRoutes },
         if cnt ≠ 0 then 0 else ESRCH)

/-- The filter applied by `FakeNetlinkProtocolSocket::getRoutes`: a zero
protocol / family / type in the filter route is a wildcard. -/
def routeFilterOk (flt route : Route) : Bool :=
  (flt.protocolId == 0 || flt.protocolId == route.protocolId) &&
  (flt.family == 0 || flt.family == route.family) &&
  (flt.routeType == 0 || flt.routeType == route.routeType)

/-- `FakeNetlinkProtocolSocket::getRoutes`: all MPLS routes then all
unicast routes, each passed through the filter. -/
def getRoutes (st : FakeState) (flt : Route) : List Route :=
  ((st.mplsRoutes.map Prod.snd).flatten.map Prod.snd).filter (routeFilterOk flt)
    ++ ((st.unicastRoutes.map Prod.snd).flatten.map Prod.snd).filter
        (routeFilterOk flt)

/-- `FakeNetlinkProtocolSocket::addIfAddress`: `-ENXIOerr` when the interface
index is unknown or the prefix is missing, `-EEXIST` when an address with
the same prefix is already stored, otherwise append and resolve 0. -/
def addIfAddress (st : FakeState) (addr : IfAddress) : FakeState × Int :=
  match alistGet addr.ifIndex st.ifAddrs with
  | none => (st, -ENXIOerr)
  | some lst =>
    if addr.getPrefix.isNone then (st, -ENXIOerr)
    else if lst.any (fun a => a.getPrefix = addr.getPrefix) then (st, -EEXIST)
    else ({ st with
             ifAddrs := alistModify addr.ifIndex (fun l => l ++ [addr])
               st.ifAddrs },
          0)

/-- Erase the first stored address whose prefix equals `p`; `none` when no
stored address matches. -/
def eraseFirstWithPrefix (p : Option IpPrefix) :
    List IfAddress → Option (List IfAddress)
  | [] => none
  | a :: rest =>
    if a.getPrefix = p then some rest
    else (eraseFirstWithPrefix p rest).map (a :: ·)

/-- `FakeNetlinkProtocolSocket::deleteIfAddress`: `-ENXIOerr` when the
interface index is unknown or the prefix is missing, 0 after erasing the
first address with a matching prefix, `-EADDRNOTAVAIL` when none matches. -/
def deleteIfAddress (st : FakeState) (addr : IfAddress) : FakeState × Int :=
  match alistGet addr.ifIndex st.ifAddrs with
  | none => (st, -ENXIOerr)
  | some lst =>
    if addr.getPrefix.isNone then (st, -ENXIOerr)
    else
      match eraseFirstWithPrefix addr.getPrefix lst with
      | some lst1 =>
        ({ st with ifAddrs := alistInsert addr.ifIndex lst1 st.ifAddrs }, 0)
      | none => (st, -EADDRNOTAVAIL)

/-- `FakeNetlinkProtocolSocket::getAllIfAddresses`: concatenate the
per-interface address lists in table order. -/
def getAllIfAddresses (st : FakeState) : List IfAddress :=
  (st.ifAddrs.map Prod.snd).flatten

/-- `FakeNetlinkProtocolSocket::addLink`: `-EEXIST` when the index is
already present, otherwise store the link together with an empty address
list and resolve 0. -/
def addLink (st : FakeState) (link : Link) : FakeState × Int :=
  if (alistGet link.ifIndex st.links).isSome then (st, -EEXIST)
  else
    ({ st with
        links := alistEmplace link.ifIndex link st.links,
        ifAddrs := alistEmplace link.ifIndex [] st.ifAddrs },
     0)

/-- `FakeNetlinkProtocolSocket::getAllLinks`: the stored links in table
order. -/
def getAllLinks (st : FakeState) : List Link := st.links.map Prod.snd

end FakeNetlinkProtocolSocket

/-! ## The System Handler (NetlinkSystemHandler.cpp), backed by the fake
protocol socket -/

/-- `thrift::Link` as assembled by `semifuture_getAllLinks`. -/
structure ThriftLink where
  ifName : String
  ifIndex : Int
  isUp : Bool
  networks : List IpPrefix
deriving DecidableEq, Repr

namespace NetlinkSystemHandler

open FakeNetlinkProtocolSocket

/-- The loop body of `NetlinkSystemHandler::getIfIndex`: first link whose
name matches. -/
def findIfIndex (ifName : String) : List Link → Option Int
  | [] => none
  | l :: rest =>
    if l.linkName = ifName then some l.ifIndex else findIfIndex ifName rest

/-- `NetlinkSystemHandler::getIfIndex`: query all links, return the index
of the first one whose name matches, `std::nullopt` otherwise. -/
def getIfIndex (st : FakeState) (ifName : String) : Option Int :=
  findIfIndex ifName (getAllLinks st)

/-- The fresh `thrift::Link` created for each kernel link in
`semifuture_getAllLinks` (networks filled in afterwards). -/
def mkThriftLink (l : Link) : ThriftLink :=
  { ifName := l.linkName, ifIndex := l.ifIndex, isUp := l.isUp, networks := [] }

/-- First loop of `semifuture_getAllLinks`: build the
`unordered_map<int, thrift::Link>` keyed by ifIndex via `emplace`. -/
def buildLinkMapFrom (m : List (Int × ThriftLink)) :
    List Link → List (Int × ThriftLink)
  | [] => m
  | l :: rest => buildLinkMapFrom (alistEmplace l.ifIndex (mkThriftLink l) m) rest

def buildLinkMap (links : List Link) : List (Int × ThriftLink) :=
  buildLinkMapFrom [] links

/-- Second loop of `semifuture_getAllLinks`: for every kernel address,
`links.at(ifIndex)` (throwing `std::out_of_range` on a missing key) and
append `toIpPrefix(prefix.value())` to that entry's networks. -/
def addLinkNetworks (m : List (Int × ThriftLink)) :
    List IfAddress → Except CppError (List (Int × ThriftLink))
  | [] => .ok m
  | a :: rest =>
    if (alistGet a.ifIndex m).isNone then .error .outOfRange
    else
      match a.getPrefix with
      | none => .error .badOptionalAccess
      | some p =>
        addLinkNetworks
          (alistModify a.ifIndex
            (fun tl => { tl with networks := tl.networks ++ [toIpPrefix p] }) m)
          rest

/-- `NetlinkSystemHandler::semifuture_getAllLinks`: links from the socket,
augmented with every address whose ifIndex matches, returned as a list. -/
def semifuture_getAllLinks (st : FakeState) : Except CppError (List ThriftLink) :=
  (addLinkNetworks (buildLinkMap (getAllLinks st)) (getAllIfAddresses st)).map
    (List.map Prod.snd)

/-- The scope inferred in `addRemoveIfAddresses` from the address class:
host for loopback, link for link-local, universe otherwise. -/
def deriveScope (network : IpPrefix) : Nat :=
  if network.addr.isLoopback then RT_SCOPE_HOST
  else if network.addr.isLinkLocal then RT_SCOPE_LINK
  else RT_SCOPE_UNIVERSE

/-- The per-address loop of `addRemoveIfAddresses`: build each `IfAddress`
and issue the add or delete against the socket, which (being the fake)
executes eagerly; the resolved integers are collected in order. -/
def addRemoveLoop (isAdd : Bool) (ifIndex : Int) (st : FakeState) :
    List IpPrefix → FakeState × List Int
  | [] => (st, [])
  | addr :: rest =>
    let network := toIPNetwork addr
    let built : IfAddress :=
      { ifIndex := ifIndex, getPrefix := some network,
        scope := deriveScope network }
    let out := if isAdd then addIfAddress st built else deleteIfAddress st built
    let next := addRemoveLoop isAdd ifIndex out.1 rest
    (next.1, out.2 :: next.2)

/-- The `collectAll(...).deferValue` body shared by `addRemoveIfAddresses`
and `semifuture_syncIfaceAddresses`: take `abs` of every sub-result and
throw `NlException` on the first one that is neither 0 nor `EEXIST` nor
`EADDRNOTAVAIL`. -/
def collectRetvals : List Int → Except CppError Unit
  | [] => .ok ()
  | ret :: rest =>
    if |ret| ≠ 0 ∧ |ret| ≠ EEXIST ∧ |ret| ≠ EADDRNOTAVAIL then
      .error (.nlException |ret|)
    else collectRetvals rest

/-- `NetlinkSystemHandler::addRemoveIfAddresses`: resolve the interface
name (`getIfIndex(...).value()` throws `std::bad_optional_access` when it
is unknown), issue one add/delete per address, then collect the results. -/
def addRemoveIfAddresses (st : FakeState) (isAdd : Bool) (ifName : String)
    (addrs : List IpPrefix) : Except CppError FakeState :=
  match getIfIndex st ifName with
  | none => .error .badOptionalAccess
  | some ifIndex =>
    let out := addRemoveLoop isAdd ifIndex st addrs
    (collectRetvals out.2).map (fun _ => out.1)

/-- `NetlinkSystemHandler::semifuture_addIfaceAddresses`. -/
def semifuture_addIfaceAddresses (st : FakeState) (ifName : String)
    (addrs : List IpPrefix) : Except CppError FakeState :=
  addRemoveIfAddresses st true ifName addrs

/-- `NetlinkSystemHandler::semifuture_removeIfaceAddresses`. -/
def semifuture_removeIfaceAddresses (st : FakeState) (ifName : String)
    (addrs : List IpPrefix) : Except CppError FakeState :=
  addRemoveIfAddresses st false ifName addrs

/-- The filter loop of `semifuture_getIfaceAddresses`: keep an address when
its ifIndex matches, the family filter passes (a zero family is a
wildcard), and its scope equals the scope argument (always checked);
`getPrefix().value()` throws when a kept address has no prefix. -/
def filterIfaceAddresses (ifIndex : Int) (family scope : Nat) :
    List IfAddress → Except CppError (List IpPrefix)
  | [] => .ok []
  | a :: rest =>
    if a.ifIndex ≠ ifIndex then filterIfaceAddresses ifIndex family scope rest
    else if family ≠ 0 ∧ a.getFamily ≠ family then
      filterIfaceAddresses ifIndex family scope rest
    else if a.scope ≠ scope then filterIfaceAddresses ifIndex family scope rest
    else
      match a.getPrefix with
      | none => .error .badOptionalAccess
      | some p =>
        (filterIfaceAddresses ifIndex family scope rest).map (toIpPrefix p :: ·)

/-- The predicate the filter loop of `semifuture_getIfaceAddresses`
implements: matching ifIndex, family filter passed (zero family is a
wildcard), scope equal to the scope argument. -/
def addrFilterOk (ifIndex : Int) (family scope : Nat) (a : IfAddress) : Prop :=
  a.ifIndex = ifIndex ∧ (family = 0 ∨ a.getFamily = family) ∧ a.scope = scope

instance (ifIndex : Int) (family scope : Nat) (a : IfAddress) :
    Decidable (addrFilterOk ifIndex family scope a) := by
  unfold addrFilterOk; infer_instance

/-- `NetlinkSystemHandler::semifuture_getIfaceAddresses`. -/
def semifuture_getIfaceAddresses (st : FakeState) (ifName : String)
    (family scope : Nat) : Except CppError (List IpPrefix) :=
  match getIfIndex st ifName with
  | none => .error .badOptionalAccess
  | some ifIndex =>
    filterIfaceAddresses ifIndex family scope (getAllIfAddresses st)

/-- The add loop of `semifuture_syncIfaceAddresses`: add every desired
address not found among the current ones, with the scope argument stamped
on the built address. Alongside the socket results the addresses actually
issued as adds are returned (verification trace of the wire operations). -/
def syncAddLoop (ifIndex : Int) (scope : Nat) (oldAddrs : List IpPrefix)
    (st : FakeState) : List IpPrefix → FakeState × List Int × List IpPrefix
  | [] => (st, [], [])
  | newAddr :: rest =>
    if newAddr ∈ oldAddrs then syncAddLoop ifIndex scope oldAddrs st rest
    else
      let built : IfAddress :=
        { ifIndex := ifIndex, getPrefix := some (toIPNetwork newAddr),
          scope := scope }
      let out := FakeNetlinkProtocolSocket.addIfAddress st built
      let next := syncAddLoop ifIndex scope oldAddrs out.1 rest
      (next.1, out.2 :: next.2.1, newAddr :: next.2.2)

/-- The delete loop of `semifuture_syncIfaceAddresses`: delete every
current address not among the desired ones; the addresses actually issued
as deletes are returned alongside the socket results. -/
def syncDelLoop (ifIndex : Int) (scope : Nat) (newAddrs : List IpPrefix)
    (st : FakeState) : List IpPrefix → FakeState × List Int × List IpPrefix
  | [] => (st, [], [])
  | oldAddr :: rest =>
    if oldAddr ∈ newAddrs then syncDelLoop ifIndex scope newAddrs st rest
    else
      let built : IfAddress :=
        { ifIndex := ifIndex, getPrefix := some (toIPNetwork oldAddr),
          scope := scope }
      let out := FakeNetlinkProtocolSocket.deleteIfAddress st built
      let next := syncDelLoop ifIndex scope newAddrs out.1 rest
      (next.1, out.2 :: next.2.1, oldAddr :: next.2.2)

/-- `NetlinkSystemHandler::semifuture_syncIfaceAddresses`: resolve the
interface, read the current addresses through the family/scope filter, add
the missing desired addresses, delete the stale current ones, and collect
all sub-results. On success the final state is returned together with the
add-trace and delete-trace of issued wire operations. -/
def semifuture_syncIfaceAddresses (st : FakeState) (iface : String)
    (family scope : Nat) (newAddrs : List IpPrefix) :
    Except CppError (FakeState × List IpPrefix × List IpPrefix) :=
  match getIfIndex st iface with
  | none => .error .badOptionalAccess
  | some ifIndex =>
    match semifuture_getIfaceAddresses st iface family scope with
    | .error e => .error e
    | .ok oldAddrs =>
      let outAdd := syncAddLoop ifIndex scope oldAddrs st newAddrs
      let outDel := syncDelLoop ifIndex scope newAddrs outAdd.1 oldAddrs
      (collectRetvals (outAdd.2.1 ++ outDel.2.1)).map
        (fun _ => (outDel.1, outAdd.2.2, outDel.2.2))

end NetlinkSystemHandler

/-! ## The NetlinkMessage base frame (NetlinkMessage.h) -/

namespace NetlinkMessage

/-- Outcome of delivering a kernel object to a message frame's receive
callback: `fatal` models `CHECK(false) << "Must be implemented by
subclass"` (process abort), `accepted` a subclass override that ran. -/
inductive RcvResult
  | fatal
  | accepted
deriving DecidableEq, Repr

/-- Default `NetlinkMessage::rcvdRoute`: `CHECK(false)`. -/
def rcvdRouteDefault : Route → RcvResult := fun _ => .fatal

/-- Default `NetlinkMessage::rcvdLink`: `CHECK(false)`. -/
def rcvdLinkDefault : Link → RcvResult := fun _ => .fatal

/-- Default `NetlinkMessage::rcvdNeighbor`: `CHECK(false)`. -/
def rcvdNeighborDefault : Neighbor → RcvResult := fun _ => .fatal

/-- Default `NetlinkMessage::rcvdIfAddress`: `CHECK(false)`. -/
def rcvdIfAddressDefault : IfAddress → RcvResult := fun _ => .fatal

/-- A concrete `NetlinkMessage` subclass, as far as virtual dispatch of the
receive callbacks is concerned: for each object kind either an override or
`none`, the latter inheriting the base-class body. -/
structure MessageFrame where
  rcvdRouteImpl : Option (Route → RcvResult)
  rcvdLinkImpl : Option (Link → RcvResult)
  rcvdNeighborImpl : Option (Neighbor → RcvResult)
  rcvdIfAddressImpl : Option (IfAddress → RcvResult)

/-- Virtual dispatch of `rcvdRoute` on a frame. -/
def rcvdRoute (f : MessageFrame) (r : Route) : RcvResult :=
  match f.rcvdRouteImpl with
  | some impl => impl r
  | none => rcvdRouteDefault r

/-- Virtual dispatch of `rcvdLink` on a frame. -/
def rcvdLink (f : MessageFrame) (l : Link) : RcvResult :=
  match f.rcvdLinkImpl with
  | some impl => impl l
  | none => rcvdLinkDefault l

/-- Virtual dispatch of `rcvdNeighbor` on a frame. -/
def rcvdNeighbor (f : MessageFrame) (n : Neighbor) : RcvResult :=
  match f.rcvdNeighborImpl with
  | some impl => impl n
  | none => rcvdNeighborDefault n

/-- Virtual dispatch of `rcvdIfAddress` on a frame. -/
def rcvdIfAddress (f : MessageFrame) (a : IfAddress) : RcvResult :=
  match f.rcvdIfAddressImpl with
  | some impl => impl a
  | none => rcvdIfAddressDefault a

end NetlinkMessage

/-! ## Operation sequences over the fake socket -/

/-- A route-table call against the fake socket. -/
inductive RouteOp
  | add (r : Route)
  | del (r : Route)
deriving Repr

/-- Run one route call, keeping only the state (the resolved integer is
dropped; a missing MPLS label still surfaces as the thrown exception). -/
def applyRouteOp (st : FakeState) : RouteOp → Except CppError FakeState
  | .add r => (FakeNetlinkProtocolSocket.addRoute st r).map Prod.fst
  | .del r => (FakeNetlinkProtocolSocket.deleteRoute st r).map Prod.fst

/-- Run a sequence of route calls. -/
def applyRouteOps (st : FakeState) : List RouteOp → Except CppError FakeState
  | [] => .ok st
  | op :: rest =>
    match applyRouteOp st op with
    | .error e => .error e
    | .ok st1 => applyRouteOps st1 rest

/-- A link/address call against the fake socket. -/
inductive LinkAddrOp
  | addLink (l : Link)
  | addAddr (a : IfAddress)
  | delAddr (a : IfAddress)
deriving Repr

/-- Run one link/address call, keeping only the state. -/
def applyLinkAddrOp (st : FakeState) : LinkAddrOp → FakeState
  | .addLink l => (FakeNetlinkProtocolSocket.addLink st l).1
  | .addAddr a => (FakeNetlinkProtocolSocket.addIfAddress st a).1
  | .delAddr a => (FakeNetlinkProtocolSocket.deleteIfAddress st a).1

/-- Run a sequence of link/address calls. -/
def applyLinkAddrOps (st : FakeState) : List LinkAddrOp → FakeState
  | [] => st
  | op :: rest => applyLinkAddrOps (applyLinkAddrOp st op) rest

/-- Uniqueness of the route-table keys: outer protocol keys and, per
protocol, the destination keys (unicast) and label keys (MPLS). -/
def routeTablesWF (st : FakeState) : Prop :=
  (st.unicastRoutes.map Prod.fst).Nodup ∧
  (∀ p ∈ st.unicastRoutes, (p.2.map Prod.fst).Nodup) ∧
  (st.mplsRoutes.map Prod.fst).Nodup ∧
  (∀ p ∈ st.mplsRoutes, (p.2.map Prod.fst).Nodup)

instance (st : FakeState) : Decidable (routeTablesWF st) := by
  unfold routeTablesWF
  infer_instance

/-- Lookup of the stored route under the key `deleteRoute`/`addRoute` use
for `r`: (protocolId, mplsLabel) for `AF_MPLS`, (protocolId, destination)
otherwise. -/
def routeKeyLookup (st : FakeState) (r : Route) : Option Route :=
  if r.family = AF_MPLS then
    match r.mplsLabel with
    | none => none
    | some lbl => alistGet lbl ((alistGet r.protocolId st.mplsRoutes).getD [])
  else alistGet r.getDestination ((alistGet r.protocolId st.unicastRoutes).getD [])

/-- Well-formedness of a fake-socket state, as established by driving it
through its own API: the address table and link table share their key
set, keys are unique, every stored address sits under its own ifIndex
with a present prefix, per-interface prefixes are pairwise distinct, and
every link is stored under its own ifIndex. -/
structure StateWF (st : FakeState) : Prop where
  keysEq : st.ifAddrs.map Prod.fst = st.links.map Prod.fst
  keysNodup : (st.ifAddrs.map Prod.fst).Nodup
  linkKey : ∀ p ∈ st.links, Link.ifIndex p.2 = p.1
  addrKey : ∀ p ∈ st.ifAddrs, ∀ a ∈ p.2, a.ifIndex = p.1
  addrPfxSome : ∀ p ∈ st.ifAddrs, ∀ a ∈ p.2, (IfAddress.getPrefix a).isSome
  pfxNodup : ∀ p ∈ st.ifAddrs, (p.2.map IfAddress.getPrefix).Nodup

instance (st : FakeState) : Decidable (StateWF st) :=
  decidable_of_iff
    ((st.ifAddrs.map Prod.fst = st.links.map Prod.fst) ∧
      (st.ifAddrs.map Prod.fst).Nodup ∧
      (∀ p ∈ st.links, Link.ifIndex p.2 = p.1) ∧
      (∀ p ∈ st.ifAddrs, ∀ a ∈ p.2, a.ifIndex = p.1) ∧
      (∀ p ∈ st.ifAddrs, ∀ a ∈ p.2, (IfAddress.getPrefix a).isSome) ∧
      (∀ p ∈ st.ifAddrs, (p.2.map IfAddress.getPrefix).Nodup))
    ⟨fun h => ⟨h.1, h.2.1, h.2.2.1, h.2.2.2.1, h.2.2.2.2.1, h.2.2.2.2.2⟩,
     fun h => ⟨h.keysEq, h.keysNodup, h.linkKey, h.addrKey, h.addrPfxSome,
       h.pfxNodup⟩⟩

/-- The address prefixes associated with link key `k`: what
`semifuture_getAllLinks` accumulates into that link's networks. -/
def networksFor (k : Int) (addrs : List IfAddress) : List IpPrefix :=
  addrs.filterMap (fun a => if a.ifIndex = k then a.getPrefix else none)

/-- Bool test: the stored address does not carry prefix `p`. -/
def prefixNe (p : Option IpPrefix) (a : IfAddress) : Bool :=
  !(decide (IfAddress.getPrefix a = p))

/-- Whether a stored address survives the sync delete-loop run for the
current filtered view `Cl` and desired list `D`: it is removed exactly
when its prefix is some `c ∈ Cl` with `c ∉ D`. -/
def survivesDeletes (Cl D : List IpPrefix) (a : IfAddress) : Bool :=
  Cl.all (fun c => decide (c ∈ D) || prefixNe (some c) a)

/-! ## Concrete sample data for scenarios and counterexamples -/

namespace Samples

def eth0Name : String := "eth0"
def loName : String := "lo"

/-- 10.0.0.1, an IPv4 global unicast address. -/
def ip10001 : IpAddr := ⟨AF_INET, false, false, 167772161⟩

/-- 10.0.0.1/24. -/
def pfx10001 : IpPrefix := ⟨ip10001, 24⟩

/-- 192.168.1.1, an IPv4 global unicast address. -/
def ip192 : IpAddr := ⟨AF_INET, false, false, 3232235777⟩

/-- 192.168.1.1/24. -/
def pfx192 : IpPrefix := ⟨ip192, 24⟩

/-- 10.0.0.0/8, a unicast route destination. -/
def pfx10008 : IpPrefix := ⟨⟨AF_INET, false, false, 167772160⟩, 8⟩

def linkEth0 : Link := ⟨1, eth0Name, IFF_RUNNING⟩
def linkLo : Link := ⟨2, loName, IFF_RUNNING ||| IFF_LOOPBACK⟩

/-- 10.0.0.1/24 on interface 1, universe scope. -/
def addrEth0 : IfAddress := ⟨1, some pfx10001, RT_SCOPE_UNIVERSE⟩

/-- 192.168.1.1/24 on interface 1 with host scope: an address outside a
universe-scoped filter view. -/
def addrHidden : IfAddress := ⟨1, some pfx192, RT_SCOPE_HOST⟩

/-- One-link state: eth0 as interface 1 carrying 10.0.0.1/24. -/
def st1 : FakeState := ⟨[(1, linkEth0)], [(1, [addrEth0])], [], []⟩

/-- One-link state whose only address is host-scoped 192.168.1.1/24. -/
def stHidden : FakeState := ⟨[(1, linkEth0)], [(1, [addrHidden])], [], []⟩

/-- Unicast route to 10.0.0.0/8, protocol 99, next-hop set [1]. -/
def routeU1 : Route := ⟨99, AF_INET, pfx10008, none, 1, [1]⟩

/-- Same key as `routeU1` with a different next-hop set. -/
def routeU2 : Route := ⟨99, AF_INET, pfx10008, none, 1, [2]⟩

/-- An MPLS route, protocol 99, label 100. -/
def routeM1 : Route := ⟨99, AF_MPLS, pfx10008, some 100, 1, [1]⟩

/-- State holding exactly `routeU1`. -/
def stRoutes : FakeState := ⟨[], [], [(99, [(pfx10008, routeU1)])], []⟩

/-- State holding exactly `routeU2`: what replacing `routeU1` leaves. -/
def stRoutes2 : FakeState := ⟨[], [], [(99, [(pfx10008, routeU2)])], []⟩

/-- A `getRoutes` filter selecting protocol 99 (family and type zero act
as wildcards). -/
def fltProto99 : Route := ⟨99, 0, pfx10008, none, 0, []⟩

/-- The get-all-links scenario state: eth0 (index 1, up) and lo (index 2,
up, loopback) with one address 10.0.0.1/24 on index 1. -/
def stC4 : FakeState :=
  ⟨[(1, linkEth0), (2, linkLo)], [(1, [addrEth0]), (2, [])], [], []⟩

/-- A message frame that overrides none of the receive callbacks. -/
def bareFrame : NetlinkMessage.MessageFrame := ⟨none, none, none, none⟩

def sampleNeighbor : Neighbor := ⟨1, ip10001, 0, 0⟩

end Samples

/-! # Lemmas about the association-list operations -/

section AlistLemmas

variable {κ α : Type} [DecidableEq κ]

theorem alistGet_isSome_iff (k : κ) (l : List (κ × α)) :
    (alistGet k l).isSome ↔ k ∈ l.map Prod.fst := by
  induction l with
  | nil => simp [alistGet]
  | cons p rest ih =>
    obtain ⟨k1, v1⟩ := p
    by_cases h : k1 = k
    · subst h
      simp [alistGet]
    · simp [alistGet, h, ih, Ne.symm h]

theorem alistGet_isNone_iff (k : κ) (l : List (κ × α)) :
    alistGet k l = none ↔ k ∉ l.map Prod.fst := by
  rw [← alistGet_isSome_iff k l, ← Option.not_isSome_iff_eq_none]

theorem alistGet_insert_self (k : κ) (v : α) (l : List (κ × α)) :
    alistGet k (alistInsert k v l) = some v := by
  induction l with
  | nil => simp [alistGet, alistInsert]
  | cons p rest ih =>
    obtain ⟨k1, v1⟩ := p
    by_cases h : k1 = k <;> simp [alistGet, alistInsert, h, ih]

theorem alistGet_insert_ne (j k : κ) (v : α) (l : List (κ × α)) (h : j ≠ k) :
    alistGet j (alistInsert k v l) = alistGet j l := by
  induction l with
  | nil => simp [alistGet, alistInsert, Ne.symm h]
  | cons p rest ih =>
    obtain ⟨k1, v1⟩ := p
    by_cases h1 : k1 = k
    · subst h1
      simp [alistGet, alistInsert, Ne.symm h]
    · by_cases h2 : k1 = j <;> simp [alistGet, alistInsert, h1, h2, ih, h]

theorem alistInsert_map_fst_of_mem (k : κ) (v : α) (l : List (κ × α))
    (h : k ∈ l.map Prod.fst) : (alistInsert k v l).map Prod.fst = l.map Prod.fst := by
  induction l with
  | nil => simp at h
  | cons p rest ih =>
    obtain ⟨k1, v1⟩ := p
    by_cases h1 : k1 = k
    · simp [alistInsert, h1]
    · have h2 : k ∈ rest.map Prod.fst := by
        simp only [List.map_cons, List.mem_cons] at h
        exact h.resolve_left (fun hc => h1 hc.symm)
      simp [alistInsert, h1, ih h2]

theorem alistInsert_map_fst_of_not_mem (k : κ) (v : α) (l : List (κ × α))
    (h : k ∉ l.map Prod.fst) :
    (alistInsert k v l).map Prod.fst = l.map Prod.fst ++ [k] := by
  induction l with
  | nil => simp [alistInsert]
  | cons p rest ih =>
    obtain ⟨k1, v1⟩ := p
    simp only [List.map_cons, List.mem_cons] at h
    push_neg at h
    have h1 : k1 ≠ k := fun hc => h.1 hc.symm
    simp [alistInsert, h1, ih h.2]

theorem alistInsert_length_of_mem (k : κ) (v : α) (l : List (κ × α))
    (h : k ∈ l.map Prod.fst) : (alistInsert k v l).length = l.length := by
  induction l with
  | nil => simp at h
  | cons p rest ih =>
    obtain ⟨k1, v1⟩ := p
    by_cases h1 : k1 = k
    · simp [alistInsert, h1]
    · have h2 : k ∈ rest.map Prod.fst := by
        simp only [List.map_cons, List.mem_cons] at h
        exact h.resolve_left (fun hc => h1 hc.symm)
      simp [alistInsert, h1, ih h2]

theorem alistInsert_keys_nodup (k : κ) (v : α) (l : List (κ × α))
    (h : (l.map Prod.fst).Nodup) : ((alistInsert k v l).map Prod.fst).Nodup := by
  by_cases hm : k ∈ l.map Prod.fst
  · rw [alistInsert_map_fst_of_mem k v l hm]; exact h
  · rw [alistInsert_map_fst_of_not_mem k v l hm]
    refine h.append (List.nodup_singleton k) ?_
    intro a ha hb
    rw [List.mem_singleton] at hb
    subst hb
    exact hm ha

theorem alistInsert_mem (k : κ) (v : α) (l : List (κ × α)) (q : κ × α)
    (h : q ∈ alistInsert k v l) : q = (k, v) ∨ q ∈ l := by
  induction l with
  | nil => simpa [alistInsert] using h
  | cons p rest ih =>
    obtain ⟨k1, v1⟩ := p
    by_cases h1 : k1 = k
    · simp only [alistInsert, h1, if_pos rfl] at h
      rcases List.mem_cons.mp h with h2 | h2
      · exact Or.inl h2
      · exact Or.inr (List.mem_cons_of_mem _ h2)
    · simp only [alistInsert, if_neg h1] at h
      rcases List.mem_cons.mp h with h2 | h2
      · exact Or.inr (h2 ▸ List.mem_cons_self _ _)
      · rcases ih h2 with h3 | h3
        · exact Or.inl h3
        · exact Or.inr (List.mem_cons_of_mem _ h3)

theorem alistModify_map_fst (k : κ) (f : α → α) (l : List (κ × α)) :
    (alistModify k f l).map Prod.fst = l.map Prod.fst := by
  induction l with
  | nil => simp [alistModify]
  | cons p rest ih =>
    obtain ⟨k1, v1⟩ := p
    by_cases h : k1 = k <;> simp [alistModify, h, ih]

theorem alistGet_modify_self (k : κ) (f : α → α) (l : List (κ × α))
    (h : (l.map Prod.fst).Nodup) :
    alistGet k (alistModify k f l) = (alistGet k l).map f := by
  induction l with
  | nil => simp [alistGet, alistModify]
  | cons p rest ih =>
    obtain ⟨k1, v1⟩ := p
    simp only [List.map_cons, List.nodup_cons] at h
    by_cases h1 : k1 = k
    · subst h1
      simp [alistGet, alistModify]
    · simp [alistGet, alistModify, h1, ih h.2]

theorem alistGet_modify_ne (j k : κ) (f : α → α) (l : List (κ × α))
    (h : j ≠ k) : alistGet j (alistModify k f l) = alistGet j l := by
  induction l with
  | nil => simp [alistGet, alistModify]
  | cons p rest ih =>
    obtain ⟨k1, v1⟩ := p
    by_cases h1 : k1 = k
    · subst h1
      simp [alistGet, alistModify, Ne.symm h, ih]
    · by_cases h2 : k1 = j <;> simp [alistGet, alistModify, h1, h2, ih, h]

theorem alistModify_mem (k : κ) (f : α → α) (l : List (κ × α)) (q : κ × α)
    (h : q ∈ alistModify k f l) : q ∈ l ∨ ∃ v, (k, v) ∈ l ∧ q = (k, f v) := by
  induction l with
  | nil => simp [alistModify] at h
  | cons p rest ih =>
    obtain ⟨k1, v1⟩ := p
    by_cases h1 : k1 = k
    · subst h1
      simp only [alistModify, if_pos rfl] at h
      rcases List.mem_cons.mp h with h2 | h2
      · exact Or.inr ⟨v1, List.mem_cons_self _ _, h2⟩
      · exact Or.inl (List.mem_cons_of_mem _ h2)
    · simp only [alistModify, if_neg h1] at h
      rcases List.mem_cons.mp h with h2 | h2
      · exact Or.inl (h2 ▸ List.mem_cons_self _ _)
      · rcases ih h2 with h3 | h3
        · exact Or.inl (List.mem_cons_of_mem _ h3)
        · obtain ⟨v, hv, hq⟩ := h3
          exact Or.inr ⟨v, List.mem_cons_of_mem _ hv, hq⟩

theorem alistErase_sublist (k : κ) (l : List (κ × α)) :
    (alistErase k l).Sublist l := by
  induction l with
  | nil => simp [alistErase]
  | cons p rest ih =>
    obtain ⟨k1, v1⟩ := p
    by_cases h : k1 = k
    · rw [alistErase, if_pos h]
      exact List.sublist_cons_self (k1, v1) rest
    · rw [alistErase, if_neg h]
      exact ih.cons₂ (k1, v1)

theorem alistErase_keys_nodup (k : κ) (l : List (κ × α))
    (h : (l.map Prod.fst).Nodup) : ((alistErase k l).map Prod.fst).Nodup :=
  ((alistErase_sublist k l).map Prod.fst).nodup h

theorem alistGet_erase_self (k : κ) (l : List (κ × α))
    (h : (l.map Prod.fst).Nodup) : alistGet k (alistErase k l) = none := by
  induction l with
  | nil => simp [alistGet, alistErase]
  | cons p rest ih =>
    obtain ⟨k1, v1⟩ := p
    simp only [List.map_cons, List.nodup_cons] at h
    by_cases h1 : k1 = k
    · subst h1
      rw [alistErase, if_pos rfl, alistGet_isNone_iff]
      exact h.1
    · simp [alistErase, alistGet, h1, ih h.2]

theorem alistGet_erase_ne (j k : κ) (l : List (κ × α)) (h : j ≠ k) :
    alistGet j (alistErase k l) = alistGet j l := by
  induction l with
  | nil => simp [alistGet, alistErase]
  | cons p rest ih =>
    obtain ⟨k1, v1⟩ := p
    by_cases h1 : k1 = k
    · subst h1
      simp [alistGet, alistErase, Ne.symm h]
    · by_cases h2 : k1 = j <;> simp [alistGet, alistErase, h1, h2, ih, h]

theorem alistEmplace_of_none (k : κ) (v : α) (l : List (κ × α))
    (h : alistGet k l = none) : alistEmplace k v l = l ++ [(k, v)] := by
  simp [alistEmplace, h]

theorem alistEmplace_of_some (k : κ) (v : α) (l : List (κ × α))
    (h : (alistGet k l).isSome) : alistEmplace k v l = l := by
  simp [alistEmplace, h]

theorem alistGet_eq_some_of_mem_nodup (k : κ) (v : α) (l : List (κ × α))
    (hn : (l.map Prod.fst).Nodup) (h : (k, v) ∈ l) : alistGet k l = some v := by
  induction l with
  | nil => simp at h
  | cons p rest ih =>
    obtain ⟨k1, v1⟩ := p
    simp only [List.map_cons, List.nodup_cons] at hn
    rcases List.mem_cons.mp h with h1 | h1
    · rw [Prod.mk.injEq] at h1
      obtain ⟨hk, hv⟩ := h1
      simp [alistGet, hk, hv]
    · have hk : k1 ≠ k := by
        rintro rfl
        exact hn.1 (List.mem_map.mpr ⟨(k1, v), h1, rfl⟩)
      simp [alistGet, hk, ih hn.2 h1]

theorem alistGet_mem (k : κ) (v : α) (l : List (κ × α))
    (h : alistGet k l = some v) : (k, v) ∈ l := by
  induction l with
  | nil => simp [alistGet] at h
  | cons p rest ih =>
    obtain ⟨k1, v1⟩ := p
    by_cases h1 : k1 = k
    · subst h1
      rw [alistGet, if_pos rfl, Option.some.injEq] at h
      exact h ▸ List.mem_cons_self _ _
    · rw [alistGet, if_neg h1] at h
      exact List.mem_cons_of_mem _ (ih h)

end AlistLemmas

/-! # Lemmas about the fake socket and the handler -/

theorem mem_getAllIfAddresses (st : FakeState) (a : IfAddress) :
    a ∈ FakeNetlinkProtocolSocket.getAllIfAddresses st ↔
      ∃ p ∈ st.ifAddrs, a ∈ p.2 := by
  unfold FakeNetlinkProtocolSocket.getAllIfAddresses
  rw [List.mem_flatten]
  constructor
  · rintro ⟨l, hl, ha⟩
    obtain ⟨p, hp, rfl⟩ := List.mem_map.mp hl
    exact ⟨p, hp, ha⟩
  · rintro ⟨p, hp, ha⟩
    exact ⟨p.2, List.mem_map.mpr ⟨p, hp, rfl⟩, ha⟩

theorem collectRetvals_ok_iff (rets : List Int) :
    NetlinkSystemHandler.collectRetvals rets = .ok () ↔
      ∀ r ∈ rets, |r| = 0 ∨ |r| = EEXIST ∨ |r| = EADDRNOTAVAIL := by
  induction rets with
  | nil => simp [NetlinkSystemHandler.collectRetvals]
  | cons r rest ih =>
    have hiff : (|r| ≠ 0 ∧ |r| ≠ EEXIST ∧ |r| ≠ EADDRNOTAVAIL) ↔
        ¬(|r| = 0 ∨ |r| = EEXIST ∨ |r| = EADDRNOTAVAIL) := by tauto
    by_cases hok : |r| = 0 ∨ |r| = EEXIST ∨ |r| = EADDRNOTAVAIL
    · rw [NetlinkSystemHandler.collectRetvals, if_neg (fun hc => (hiff.mp hc) hok)]
      simp only [List.forall_mem_cons]
      constructor
      · intro hr
        exact ⟨hok, ih.mp hr⟩
      · intro hr
        exact ih.mpr hr.2
    · rw [NetlinkSystemHandler.collectRetvals, if_pos (hiff.mpr hok)]
      constructor
      · intro hc
        exact Except.noConfusion hc
      · intro hall
        exact absurd (hall r (List.mem_cons_self r rest)) hok

theorem eraseFirstWithPrefix_eq_none (p : Option IpPrefix)
    (lst : List IfAddress) (h : ∀ a ∈ lst, IfAddress.getPrefix a ≠ p) :
    FakeNetlinkProtocolSocket.eraseFirstWithPrefix p lst = none := by
  induction lst with
  | nil => rfl
  | cons a rest ih =>
    rw [FakeNetlinkProtocolSocket.eraseFirstWithPrefix,
      if_neg (h a (List.mem_cons_self a rest))]
    rw [ih (fun b hb => h b (List.mem_cons_of_mem a hb))]
    rfl

theorem filterIfaceAddresses_eq_ok (i : Int) (fam sc : Nat)
    (lst : List IfAddress)
    (h : ∀ a ∈ lst, NetlinkSystemHandler.addrFilterOk i fam sc a → (IfAddress.getPrefix a).isSome) :
    NetlinkSystemHandler.filterIfaceAddresses i fam sc lst =
      .ok (lst.filterMap fun a =>
        if NetlinkSystemHandler.addrFilterOk i fam sc a then a.getPrefix else none) := by
  induction lst with
  | nil => rfl
  | cons a rest ih =>
    have hrest := fun b hb => h b (List.mem_cons_of_mem a hb)
    simp only [NetlinkSystemHandler.filterIfaceAddresses]
    by_cases h1 : a.ifIndex ≠ i
    · have hno : ¬ NetlinkSystemHandler.addrFilterOk i fam sc a := fun hc => h1 hc.1
      rw [if_pos h1, ih hrest, List.filterMap_cons, if_neg hno]
    · rw [if_neg h1]
      push_neg at h1
      by_cases h2 : fam ≠ 0 ∧ a.getFamily ≠ fam
      · have hno : ¬ NetlinkSystemHandler.addrFilterOk i fam sc a := by
          rintro ⟨-, hfam, -⟩
          rcases hfam with h0 | h0
          · exact h2.1 h0
          · exact h2.2 h0
        rw [if_pos h2, ih hrest, List.filterMap_cons, if_neg hno]
      · rw [if_neg h2]
        by_cases h3 : a.scope ≠ sc
        · have hno : ¬ NetlinkSystemHandler.addrFilterOk i fam sc a := fun hc => h3 hc.2.2
          rw [if_pos h3, ih hrest, List.filterMap_cons, if_neg hno]
        · rw [if_neg h3]
          push_neg at h2 h3
          have hyes : NetlinkSystemHandler.addrFilterOk i fam sc a := by
            refine ⟨h1, ?_, h3⟩
            by_cases hf0 : fam = 0
            · exact Or.inl hf0
            · exact Or.inr (h2 hf0)
          obtain ⟨p, hp⟩ :=
            Option.isSome_iff_exists.mp (h a (List.mem_cons_self a rest) hyes)
          rw [hp, ih hrest, List.filterMap_cons, if_pos hyes, hp]
          rfl

/-! # Claim C8 -/

/-- C8: invoking any of the per-object-kind receive callbacks that the
frame's subclass has not overridden runs the `NetlinkMessage` base-class
default, which is `CHECK(false)` — a fatal abort, never a silent
acceptance of the object. -/
theorem C8_default_receive_callbacks_fatal (f : NetlinkMessage.MessageFrame)
    (r : Route) (l : Link) (n : Neighbor) (a : IfAddress) :
    (f.rcvdRouteImpl = none → NetlinkMessage.rcvdRoute f r = .fatal) ∧
    (f.rcvdLinkImpl = none → NetlinkMessage.rcvdLink f l = .fatal) ∧
    (f.rcvdNeighborImpl = none → NetlinkMessage.rcvdNeighbor f n = .fatal) ∧
    (f.rcvdIfAddressImpl = none → NetlinkMessage.rcvdIfAddress f a = .fatal) := by
  refine ⟨fun h => ?_, fun h => ?_, fun h => ?_, fun h => ?_⟩ <;>
    simp [NetlinkMessage.rcvdRoute, NetlinkMessage.rcvdLink,
      NetlinkMessage.rcvdNeighbor, NetlinkMessage.rcvdIfAddress,
      NetlinkMessage.rcvdRouteDefault, NetlinkMessage.rcvdLinkDefault,
      NetlinkMessage.rcvdNeighborDefault, NetlinkMessage.rcvdIfAddressDefault, h]

/-- Witness for C8 at a frame with no overrides and concrete objects. -/
theorem C8_default_receive_callbacks_fatal_witness :
    Samples.bareFrame.rcvdRouteImpl = none ∧
    NetlinkMessage.rcvdRoute Samples.bareFrame Samples.routeU1 = .fatal ∧
    NetlinkMessage.rcvdLink Samples.bareFrame Samples.linkEth0 = .fatal ∧
    NetlinkMessage.rcvdNeighbor Samples.bareFrame Samples.sampleNeighbor = .fatal ∧
    NetlinkMessage.rcvdIfAddress Samples.bareFrame Samples.addrEth0 = .fatal := by
  have h := C8_default_receive_callbacks_fatal Samples.bareFrame
    Samples.routeU1 Samples.linkEth0 Samples.sampleNeighbor Samples.addrEth0
  exact ⟨rfl, h.1 rfl, h.2.1 rfl, h.2.2.1 rfl, h.2.2.2 rfl⟩

/-! # Claim C6 -/

/-- C6: an interface-address add or delete whose ifIndex references no
existing link (the address table sharing its key set with the link table)
resolves with `-ENXIOerr` — "no such device or address" — and leaves the
state unmutated. -/
theorem C6_unknown_ifIndex_rejected (st : FakeState) (addr : IfAddress)
    (hkeys : st.ifAddrs.map Prod.fst = st.links.map Prod.fst)
    (hno : addr.ifIndex ∉ st.links.map Prod.fst) :
    FakeNetlinkProtocolSocket.addIfAddress st addr = (st, -ENXIOerr) ∧
    FakeNetlinkProtocolSocket.deleteIfAddress st addr = (st, -ENXIOerr) := by
  have h : alistGet addr.ifIndex st.ifAddrs = none := by
    rw [alistGet_isNone_iff, hkeys]
    exact hno
  constructor <;>
    simp [FakeNetlinkProtocolSocket.addIfAddress,
      FakeNetlinkProtocolSocket.deleteIfAddress, h]

/-- Witness for C6: interface index 7 is unknown to `st1`. -/
theorem C6_unknown_ifIndex_rejected_witness :
    (Samples.st1.ifAddrs.map Prod.fst = Samples.st1.links.map Prod.fst ∧
      (7 : Int) ∉ Samples.st1.links.map Prod.fst) ∧
    FakeNetlinkProtocolSocket.addIfAddress Samples.st1 ⟨7, some Samples.pfx192, 0⟩ =
      (Samples.st1, -ENXIOerr) ∧
    FakeNetlinkProtocolSocket.deleteIfAddress Samples.st1 ⟨7, some Samples.pfx192, 0⟩ =
      (Samples.st1, -ENXIOerr) := by
  have h := C6_unknown_ifIndex_rejected Samples.st1 ⟨7, some Samples.pfx192, 0⟩
    (by decide) (by decide)
  exact ⟨⟨by decide, by decide⟩, h.1, h.2⟩

/-! # Claim C9 -/

/-- C9: `deleteRoute` on the fake socket resolves with 0 exactly when a
route under the matching key — (protocolId, mplsLabel) for the MPLS
family, (protocolId, destination) otherwise — was stored, and removes it;
deleting an absent route resolves with `ESRCH`, which the handler's
idempotent-success collection (`collectRetvals`) treats as a failure,
unlike `EADDRNOTAVAIL`. -/
theorem C9_deleteRoute_esrch (st : FakeState) (r : Route)
    (hlbl : r.family = AF_MPLS → r.mplsLabel.isSome)
    (hwf : routeTablesWF st) :
    ∃ st1 ret, FakeNetlinkProtocolSocket.deleteRoute st r = .ok (st1, ret) ∧
      (ret = 0 ↔ (routeKeyLookup st r).isSome) ∧
      routeKeyLookup st1 r = none ∧
      (¬(routeKeyLookup st r).isSome → ret = ESRCH) ∧
      NetlinkSystemHandler.collectRetvals [ESRCH] =
        .error (.nlException ESRCH) ∧
      NetlinkSystemHandler.collectRetvals [-EADDRNOTAVAIL] = .ok () := by
  obtain ⟨hU, hUi, hM, hMi⟩ := hwf
  by_cases hf : r.family = AF_MPLS
  · obtain ⟨lbl, hlbl2⟩ := Option.isSome_iff_exists.mp (hlbl hf)
    have hinner : ((alistGet r.protocolId st.mplsRoutes).getD []).map
        Prod.fst |>.Nodup := by
      rcases hg : alistGet r.protocolId st.mplsRoutes with _ | inner
      · simp
      · simpa using hMi _ (alistGet_mem _ _ _ hg)
    have hdel : FakeNetlinkProtocolSocket.deleteRoute st r =
        .ok ({ st with
                mplsRoutes := alistInsert r.protocolId
                  (alistErase lbl ((alistGet r.protocolId st.mplsRoutes).getD []))
                  st.mplsRoutes },
             if (alistGet lbl
                  ((alistGet r.protocolId st.mplsRoutes).getD [])).isSome
             then 0 else ESRCH) := by
      unfold FakeNetlinkProtocolSocket.deleteRoute
      rw [if_pos hf, hlbl2]
      by_cases hp :
        (alistGet lbl ((alistGet r.protocolId st.mplsRoutes).getD [])).isSome <;>
        simp [hp]
    have hkey : routeKeyLookup st r =
        alistGet lbl ((alistGet r.protocolId st.mplsRoutes).getD []) := by
      unfold routeKeyLookup
      rw [if_pos hf, hlbl2]
    refine ⟨_, _, hdel, ?_, ?_, ?_, by rfl, by rfl⟩
    · rw [hkey]
      by_cases hp :
        (alistGet lbl ((alistGet r.protocolId st.mplsRoutes).getD [])).isSome <;>
        simp [hp, ESRCH]
    · unfold routeKeyLookup
      rw [if_pos hf, hlbl2]
      simp only [alistGet_insert_self, Option.getD_some]
      exact alistGet_erase_self lbl _ hinner
    · rw [hkey]
      intro hp
      simp only [Bool.not_eq_true, Option.not_isSome, Option.isNone_iff_eq_none] at hp
      simp [hp]
  · have hinner : ((alistGet r.protocolId st.unicastRoutes).getD []).map
        Prod.fst |>.Nodup := by
      rcases hg : alistGet r.protocolId st.unicastRoutes with _ | inner
      · simp
      · simpa using hUi _ (alistGet_mem _ _ _ hg)
    have hdel : FakeNetlinkProtocolSocket.deleteRoute st r =
        .ok ({ st with
                unicastRoutes := alistInsert r.protocolId
                  (alistErase r.getDestination
                    ((alistGet r.protocolId st.unicastRoutes).getD []))
                  st.unicastRoutes },
             if (alistGet r.getDestination
                  ((alistGet r.protocolId st.unicastRoutes).getD [])).isSome
             then 0 else ESRCH) := by
      unfold FakeNetlinkProtocolSocket.deleteRoute
      rw [if_neg hf]
      by_cases hp : (alistGet r.getDestination
          ((alistGet r.protocolId st.unicastRoutes).getD [])).isSome <;>
        simp [hp]
    have hkey : routeKeyLookup st r =
        alistGet r.getDestination
          ((alistGet r.protocolId st.unicastRoutes).getD []) := by
      unfold routeKeyLookup
      rw [if_neg hf]
    refine ⟨_, _, hdel, ?_, ?_, ?_, by rfl, by rfl⟩
    · rw [hkey]
      by_cases hp : (alistGet r.getDestination
          ((alistGet r.protocolId st.unicastRoutes).getD [])).isSome <;>
        simp [hp, ESRCH]
    · unfold routeKeyLookup
      rw [if_neg hf]
      simp only [alistGet_insert_self, Option.getD_some]
      exact alistGet_erase_self r.getDestination _ hinner
    · rw [hkey]
      intro hp
      simp only [Bool.not_eq_true, Option.not_isSome, Option.isNone_iff_eq_none] at hp
      simp [hp]

/-- Witness for C9 at the state holding exactly `routeU1`. -/
theorem C9_deleteRoute_esrch_witness :
    ((Samples.routeU1.family = AF_MPLS → Samples.routeU1.mplsLabel.isSome) ∧
      routeTablesWF Samples.stRoutes) ∧
    (∃ st1 ret,
      FakeNetlinkProtocolSocket.deleteRoute Samples.stRoutes Samples.routeU1 =
        .ok (st1, ret) ∧
      (ret = 0 ↔ (routeKeyLookup Samples.stRoutes Samples.routeU1).isSome) ∧
      routeKeyLookup st1 Samples.routeU1 = none ∧
      (¬(routeKeyLookup Samples.stRoutes Samples.routeU1).isSome → ret = ESRCH) ∧
      NetlinkSystemHandler.collectRetvals [ESRCH] =
        .error (.nlException ESRCH) ∧
      NetlinkSystemHandler.collectRetvals [-EADDRNOTAVAIL] = .ok ()) :=
  ⟨⟨by decide, by decide⟩,
    C9_deleteRoute_esrch Samples.stRoutes Samples.routeU1 (by decide) (by decide)⟩


/-! # Claim C5 -/

/-- C5: in `semifuture_getIfaceAddresses` (on which the sync operation
builds its view of the current addresses) an address is returned exactly
when its ifIndex matches the resolved interface, its scope equals the
scope argument — the scope comparison is made for every scope value, with
no wildcard — and the family filter passes, the family being compared
only when the family argument is nonzero (zero acts as a wildcard). -/
theorem C5_scope_mandatory_family_optional (st : FakeState) (ifName : String)
    (family scope : Nat) (i : Int)
    (hIdx : NetlinkSystemHandler.getIfIndex st ifName = some i)
    (hSome : ∀ a ∈ FakeNetlinkProtocolSocket.getAllIfAddresses st,
      NetlinkSystemHandler.addrFilterOk i family scope a →
        (IfAddress.getPrefix a).isSome) :
    ∃ res,
      NetlinkSystemHandler.semifuture_getIfaceAddresses st ifName family scope =
        .ok res ∧
      ∀ p : IpPrefix,
        p ∈ res ↔ ∃ a ∈ FakeNetlinkProtocolSocket.getAllIfAddresses st,
          a.ifIndex = i ∧ (family = 0 ∨ IfAddress.getFamily a = family) ∧
          a.scope = scope ∧ IfAddress.getPrefix a = some p := by
  refine ⟨(FakeNetlinkProtocolSocket.getAllIfAddresses st).filterMap
      (fun a => if NetlinkSystemHandler.addrFilterOk i family scope a
                then a.getPrefix else none), ?_, ?_⟩
  · unfold NetlinkSystemHandler.semifuture_getIfaceAddresses
    rw [hIdx]
    exact filterIfaceAddresses_eq_ok i family scope _ hSome
  · intro p
    rw [List.mem_filterMap]
    constructor
    · rintro ⟨a, ha, hp⟩
      by_cases hok : NetlinkSystemHandler.addrFilterOk i family scope a
      · rw [if_pos hok] at hp
        exact ⟨a, ha, hok.1, hok.2.1, hok.2.2, hp⟩
      · rw [if_neg hok] at hp
        exact absurd hp (by simp)
    · rintro ⟨a, ha, h1, h2, h3, hp⟩
      refine ⟨a, ha, ?_⟩
      rw [if_pos ⟨h1, h2, h3⟩]
      exact hp

/-- Witness for C5 at `st1` with a zero (wildcard) family and universe
scope. -/
theorem C5_scope_mandatory_family_optional_witness :
    (NetlinkSystemHandler.getIfIndex Samples.st1 Samples.eth0Name = some 1 ∧
      (∀ a ∈ FakeNetlinkProtocolSocket.getAllIfAddresses Samples.st1,
        NetlinkSystemHandler.addrFilterOk 1 0 0 a →
          (IfAddress.getPrefix a).isSome)) ∧
    (∃ res,
      NetlinkSystemHandler.semifuture_getIfaceAddresses Samples.st1
          Samples.eth0Name 0 0 = .ok res ∧
      ∀ p : IpPrefix,
        p ∈ res ↔ ∃ a ∈ FakeNetlinkProtocolSocket.getAllIfAddresses Samples.st1,
          a.ifIndex = 1 ∧ ((0 : Nat) = 0 ∨ IfAddress.getFamily a = 0) ∧
          a.scope = 0 ∧ IfAddress.getPrefix a = some p) :=
  ⟨⟨by decide, by decide⟩,
    C5_scope_mandatory_family_optional Samples.st1 Samples.eth0Name 0 0 1
      (by decide) (by decide)⟩

/-! # Claim C2 -/

/-- C2: at the System Handler boundary a batched address operation
succeeds exactly when every sub-result has absolute value 0, `EEXIST` or
`EADDRNOTAVAIL`; consequently adding an already-present address
(sub-result `-EEXIST`) and deleting an absent one (sub-result
`-EADDRNOTAVAIL`) complete with success, while any other nonzero
sub-result fails the whole batched operation. -/
theorem C2_idempotent_success_mapping :
    (∀ st isAdd ifName (addrs : List IpPrefix) i,
      NetlinkSystemHandler.getIfIndex st ifName = some i →
      (NetlinkSystemHandler.addRemoveIfAddresses st isAdd ifName addrs =
          .ok (NetlinkSystemHandler.addRemoveLoop isAdd i st addrs).1 ↔
        ∀ r ∈ (NetlinkSystemHandler.addRemoveLoop isAdd i st addrs).2,
          |r| = 0 ∨ |r| = EEXIST ∨ |r| = EADDRNOTAVAIL)) ∧
    (∀ st ifName i lst p,
      NetlinkSystemHandler.getIfIndex st ifName = some i →
      alistGet i st.ifAddrs = some lst →
      (∃ a ∈ lst, IfAddress.getPrefix a = some (toIPNetwork p)) →
      NetlinkSystemHandler.semifuture_addIfaceAddresses st ifName [p] =
        .ok st) ∧
    (∀ st ifName i lst p,
      NetlinkSystemHandler.getIfIndex st ifName = some i →
      alistGet i st.ifAddrs = some lst →
      (∀ a ∈ lst, IfAddress.getPrefix a ≠ some (toIPNetwork p)) →
      NetlinkSystemHandler.semifuture_removeIfaceAddresses st ifName [p] =
        .ok st) := by
  refine ⟨?_, ?_, ?_⟩
  · intro st isAdd ifName addrs i hIdx
    have hshow : NetlinkSystemHandler.addRemoveIfAddresses st isAdd ifName addrs =
        (NetlinkSystemHandler.collectRetvals
          (NetlinkSystemHandler.addRemoveLoop isAdd i st addrs).2).map
          (fun _ => (NetlinkSystemHandler.addRemoveLoop isAdd i st addrs).1) := by
      unfold NetlinkSystemHandler.addRemoveIfAddresses
      rw [hIdx]
    rw [hshow]
    rcases hc : NetlinkSystemHandler.collectRetvals
        (NetlinkSystemHandler.addRemoveLoop isAdd i st addrs).2 with e | u
    · constructor
      · intro h
        exact absurd h (by simp [Except.map])
      · intro hall
        have h2 := (collectRetvals_ok_iff _).mpr hall
        rw [hc] at h2
        exact Except.noConfusion h2
    · cases u
      constructor
      · intro _
        exact (collectRetvals_ok_iff _).mp hc
      · intro _
        rfl
  · intro st ifName i lst p hIdx hGet hEx
    have hany : lst.any
        (fun a => decide (IfAddress.getPrefix a = some (toIPNetwork p))) = true := by
      rw [List.any_eq_true]
      obtain ⟨a, ha, hp⟩ := hEx
      exact ⟨a, ha, by simp [hp]⟩
    have hadd : FakeNetlinkProtocolSocket.addIfAddress st
        ⟨i, some (toIPNetwork p),
          NetlinkSystemHandler.deriveScope (toIPNetwork p)⟩ = (st, -EEXIST) := by
      unfold FakeNetlinkProtocolSocket.addIfAddress
      simp [hGet, hany]
    have hloop : NetlinkSystemHandler.addRemoveLoop true i st [p] =
        (st, [-EEXIST]) := by
      simp [NetlinkSystemHandler.addRemoveLoop, hadd]
    have hcoll : NetlinkSystemHandler.collectRetvals [-EEXIST] = .ok () := by rfl
    unfold NetlinkSystemHandler.semifuture_addIfaceAddresses
      NetlinkSystemHandler.addRemoveIfAddresses
    rw [hIdx]
    show (NetlinkSystemHandler.collectRetvals
        (NetlinkSystemHandler.addRemoveLoop true i st [p]).2).map
        (fun _ => (NetlinkSystemHandler.addRemoveLoop true i st [p]).1) = .ok st
    rw [hloop, hcoll]
    rfl
  · intro st ifName i lst p hIdx hGet hAbsent
    have hdel : FakeNetlinkProtocolSocket.deleteIfAddress st
        ⟨i, some (toIPNetwork p),
          NetlinkSystemHandler.deriveScope (toIPNetwork p)⟩ =
        (st, -EADDRNOTAVAIL) := by
      unfold FakeNetlinkProtocolSocket.deleteIfAddress
      have hnone := eraseFirstWithPrefix_eq_none (some (toIPNetwork p)) lst
        (by simpa using hAbsent)
      simp [hGet, hnone]
    have hloop : NetlinkSystemHandler.addRemoveLoop false i st [p] =
        (st, [-EADDRNOTAVAIL]) := by
      simp [NetlinkSystemHandler.addRemoveLoop, hdel]
    have hcoll : NetlinkSystemHandler.collectRetvals [-EADDRNOTAVAIL] = .ok () := by
      rfl
    unfold NetlinkSystemHandler.semifuture_removeIfaceAddresses
      NetlinkSystemHandler.addRemoveIfAddresses
    rw [hIdx]
    show (NetlinkSystemHandler.collectRetvals
        (NetlinkSystemHandler.addRemoveLoop false i st [p]).2).map
        (fun _ => (NetlinkSystemHandler.addRemoveLoop false i st [p]).1) = .ok st
    rw [hloop, hcoll]
    rfl

/-- Witness for C2 at `st1`: adding the already-present 10.0.0.1/24 and
deleting the absent 192.168.1.1/24 both succeed. -/
theorem C2_idempotent_success_mapping_witness :
    (NetlinkSystemHandler.getIfIndex Samples.st1 Samples.eth0Name = some 1 ∧
      alistGet (1 : Int) Samples.st1.ifAddrs = some [Samples.addrEth0]) ∧
    NetlinkSystemHandler.semifuture_addIfaceAddresses Samples.st1
      Samples.eth0Name [Samples.pfx10001] = .ok Samples.st1 ∧
    NetlinkSystemHandler.semifuture_removeIfaceAddresses Samples.st1
      Samples.eth0Name [Samples.pfx192] = .ok Samples.st1 := by
  refine ⟨⟨by decide, by decide⟩, ?_, ?_⟩
  · exact C2_idempotent_success_mapping.2.1 Samples.st1 Samples.eth0Name 1
      [Samples.addrEth0] Samples.pfx10001 (by decide) (by decide)
      ⟨Samples.addrEth0, by decide, by decide⟩
  · exact C2_idempotent_success_mapping.2.2 Samples.st1 Samples.eth0Name 1
      [Samples.addrEth0] Samples.pfx192 (by decide) (by decide) (by decide)



/-! # Claim C10 -/

theorem eraseFirstWithPrefix_sublist (p : Option IpPrefix)
    (lst lst1 : List IfAddress)
    (h : FakeNetlinkProtocolSocket.eraseFirstWithPrefix p lst = some lst1) :
    lst1.Sublist lst := by
  induction lst generalizing lst1 with
  | nil => simp [FakeNetlinkProtocolSocket.eraseFirstWithPrefix] at h
  | cons a rest ih =>
    rw [FakeNetlinkProtocolSocket.eraseFirstWithPrefix] at h
    by_cases ha : a.getPrefix = p
    · rw [if_pos ha, Option.some.injEq] at h
      exact h ▸ List.sublist_cons_self a rest
    · rw [if_neg ha] at h
      rcases hr : FakeNetlinkProtocolSocket.eraseFirstWithPrefix p rest with _ | l1
      · rw [hr] at h
        simp at h
      · rw [hr] at h
        simp only [Option.map_some', Option.some.injEq] at h
        exact h ▸ (ih l1 hr).cons₂ a

/-- Each link/address call of the fake socket preserves state
well-formedness. -/
theorem applyLinkAddrOp_preserves_StateWF (st : FakeState) (op : LinkAddrOp)
    (h : StateWF st) : StateWF (applyLinkAddrOp st op) := by
  obtain ⟨hkeysEq, hkeysNodup, hlinkKey, haddrKey, haddrSome, hpfxNodup⟩ := h
  cases op with
  | addLink l =>
    show StateWF (FakeNetlinkProtocolSocket.addLink st l).1
    unfold FakeNetlinkProtocolSocket.addLink
    by_cases hp : (alistGet l.ifIndex st.links).isSome
    · rw [if_pos hp]
      exact ⟨hkeysEq, hkeysNodup, hlinkKey, haddrKey, haddrSome, hpfxNodup⟩
    · rw [if_neg hp]
      have hlnone : alistGet l.ifIndex st.links = none :=
        Option.not_isSome_iff_eq_none.mp hp
      have hanone : alistGet l.ifIndex st.ifAddrs = none := by
        rw [alistGet_isNone_iff, hkeysEq, ← alistGet_isNone_iff]
        exact hlnone
      have hnokey : l.ifIndex ∉ st.ifAddrs.map Prod.fst := by
        rw [← alistGet_isNone_iff]
        exact hanone
      rw [alistEmplace_of_none _ _ _ hlnone, alistEmplace_of_none _ _ _ hanone]
      refine ⟨?_, ?_, ?_, ?_, ?_, ?_⟩
      · simp [hkeysEq]
      · simp only [List.map_append, List.map_cons, List.map_nil]
        refine hkeysNodup.append (List.nodup_singleton _) ?_
        intro x hx hx2
        rw [List.mem_singleton] at hx2
        exact hnokey (hx2 ▸ hx)
      · intro p hp2
        rcases List.mem_append.mp hp2 with h2 | h2
        · exact hlinkKey p h2
        · rw [List.mem_singleton] at h2
          subst h2
          rfl
      · intro p hp2
        rcases List.mem_append.mp hp2 with h2 | h2
        · exact haddrKey p h2
        · rw [List.mem_singleton] at h2
          subst h2
          intro a ha
          simp at ha
      · intro p hp2
        rcases List.mem_append.mp hp2 with h2 | h2
        · exact haddrSome p h2
        · rw [List.mem_singleton] at h2
          subst h2
          intro a ha
          simp at ha
      · intro p hp2
        rcases List.mem_append.mp hp2 with h2 | h2
        · exact hpfxNodup p h2
        · rw [List.mem_singleton] at h2
          subst h2
          simp
  | addAddr a =>
    show StateWF (FakeNetlinkProtocolSocket.addIfAddress st a).1
    rcases hg : alistGet a.ifIndex st.ifAddrs with _ | lst
    · have hred : FakeNetlinkProtocolSocket.addIfAddress st a = (st, -ENXIOerr) := by
        simp only [FakeNetlinkProtocolSocket.addIfAddress, hg]
      rw [hred]
      exact ⟨hkeysEq, hkeysNodup, hlinkKey, haddrKey, haddrSome, hpfxNodup⟩
    · by_cases hn : a.getPrefix.isNone
      · have hred : FakeNetlinkProtocolSocket.addIfAddress st a = (st, -ENXIOerr) := by
          simp only [FakeNetlinkProtocolSocket.addIfAddress, hg, hn, if_true]
        rw [hred]
        exact ⟨hkeysEq, hkeysNodup, hlinkKey, haddrKey, haddrSome, hpfxNodup⟩
      · by_cases hany : lst.any (fun b => b.getPrefix = a.getPrefix)
        · have hred : FakeNetlinkProtocolSocket.addIfAddress st a =
              (st, -EEXIST) := by
            simp only [FakeNetlinkProtocolSocket.addIfAddress, hg, hn, hany]
            simp
          rw [hred]
          exact ⟨hkeysEq, hkeysNodup, hlinkKey, haddrKey, haddrSome, hpfxNodup⟩
        · have hred : FakeNetlinkProtocolSocket.addIfAddress st a =
              ({ st with ifAddrs :=
                  alistModify a.ifIndex (fun l => l ++ [a]) st.ifAddrs }, 0) := by
            simp only [FakeNetlinkProtocolSocket.addIfAddress, hg, hn, hany]
            simp
          rw [hred]
          refine ⟨?_, ?_, hlinkKey, ?_, ?_, ?_⟩
          · rw [alistModify_map_fst]
            exact hkeysEq
          · rw [alistModify_map_fst]
            exact hkeysNodup
          · intro p hp2 b hb
            rcases alistModify_mem _ _ _ _ hp2 with h2 | h2
            · exact haddrKey p h2 b hb
            · obtain ⟨v, hv, rfl⟩ := h2
              have hva : lst = v := by
                have hvget := alistGet_eq_some_of_mem_nodup _ _ _ hkeysNodup hv
                rw [hg] at hvget
                exact Option.some.inj hvget
              subst hva
              rcases List.mem_append.mp hb with h3 | h3
              · exact haddrKey (a.ifIndex, lst) (alistGet_mem _ _ _ hg) b h3
              · rw [List.mem_singleton] at h3
                subst h3
                rfl
          · intro p hp2 b hb
            rcases alistModify_mem _ _ _ _ hp2 with h2 | h2
            · exact haddrSome p h2 b hb
            · obtain ⟨v, hv, rfl⟩ := h2
              rcases List.mem_append.mp hb with h3 | h3
              · exact haddrSome (a.ifIndex, v) hv b h3
              · rw [List.mem_singleton] at h3
                subst h3
                simpa [Option.isSome_iff_ne_none] using hn
          · intro p hp2
            rcases alistModify_mem _ _ _ _ hp2 with h2 | h2
            · exact hpfxNodup p h2
            · obtain ⟨v, hv, rfl⟩ := h2
              have hva : lst = v := by
                have hvget := alistGet_eq_some_of_mem_nodup _ _ _ hkeysNodup hv
                rw [hg] at hvget
                exact Option.some.inj hvget
              subst hva
              have hnotin : a.getPrefix ∉ lst.map IfAddress.getPrefix := by
                intro hmem
                obtain ⟨b, hb, hbp⟩ := List.mem_map.mp hmem
                apply hany
                rw [List.any_eq_true]
                exact ⟨b, hb, by simp [hbp]⟩
              simp only [List.map_append, List.map_cons, List.map_nil]
              refine (hpfxNodup (a.ifIndex, lst) (alistGet_mem _ _ _ hg)).append
                (List.nodup_singleton _) ?_
              intro x hx hx2
              rw [List.mem_singleton] at hx2
              exact hnotin (hx2 ▸ hx)
  | delAddr a =>
    show StateWF (FakeNetlinkProtocolSocket.deleteIfAddress st a).1
    rcases hg : alistGet a.ifIndex st.ifAddrs with _ | lst
    · have hred : FakeNetlinkProtocolSocket.deleteIfAddress st a =
          (st, -ENXIOerr) := by
        simp only [FakeNetlinkProtocolSocket.deleteIfAddress, hg]
      rw [hred]
      exact ⟨hkeysEq, hkeysNodup, hlinkKey, haddrKey, haddrSome, hpfxNodup⟩
    · by_cases hn : a.getPrefix.isNone
      · have hred : FakeNetlinkProtocolSocket.deleteIfAddress st a =
            (st, -ENXIOerr) := by
          simp only [FakeNetlinkProtocolSocket.deleteIfAddress, hg, hn, if_true]
        rw [hred]
        exact ⟨hkeysEq, hkeysNodup, hlinkKey, haddrKey, haddrSome, hpfxNodup⟩
      · rcases he : FakeNetlinkProtocolSocket.eraseFirstWithPrefix a.getPrefix lst
          with _ | lst1
        · have hred : FakeNetlinkProtocolSocket.deleteIfAddress st a =
              (st, -EADDRNOTAVAIL) := by
            simp only [FakeNetlinkProtocolSocket.deleteIfAddress, hg, hn, he]
            simp
          rw [hred]
          exact ⟨hkeysEq, hkeysNodup, hlinkKey, haddrKey, haddrSome, hpfxNodup⟩
        · have hred : FakeNetlinkProtocolSocket.deleteIfAddress st a =
              ({ st with ifAddrs := alistInsert a.ifIndex lst1 st.ifAddrs },
                0) := by
            simp only [FakeNetlinkProtocolSocket.deleteIfAddress, hg, hn, he]
            simp
          rw [hred]
          have hsub := eraseFirstWithPrefix_sublist _ _ _ he
          have hmem : a.ifIndex ∈ st.ifAddrs.map Prod.fst := by
            rw [← alistGet_isSome_iff, hg]
            rfl
          refine ⟨?_, ?_, hlinkKey, ?_, ?_, ?_⟩
          · rw [alistInsert_map_fst_of_mem _ _ _ hmem]
            exact hkeysEq
          · rw [alistInsert_map_fst_of_mem _ _ _ hmem]
            exact hkeysNodup
          · intro p hp2 b hb
            rcases alistInsert_mem _ _ _ _ hp2 with h2 | h2
            · subst h2
              exact haddrKey (a.ifIndex, lst) (alistGet_mem _ _ _ hg) b
                (hsub.mem hb)
            · exact haddrKey p h2 b hb
          · intro p hp2 b hb
            rcases alistInsert_mem _ _ _ _ hp2 with h2 | h2
            · subst h2
              exact haddrSome (a.ifIndex, lst) (alistGet_mem _ _ _ hg) b
                (hsub.mem hb)
            · exact haddrSome p h2 b hb
          · intro p hp2
            rcases alistInsert_mem _ _ _ _ hp2 with h2 | h2
            · subst h2
              exact (hsub.map IfAddress.getPrefix).nodup
                (hpfxNodup (a.ifIndex, lst) (alistGet_mem _ _ _ hg))
            · exact hpfxNodup p h2

/-- Running any call sequence keeps a well-formed state well-formed. -/
theorem applyLinkAddrOps_StateWF (ops : List LinkAddrOp) (st : FakeState)
    (h : StateWF st) : StateWF (applyLinkAddrOps st ops) := by
  induction ops generalizing st with
  | nil => exact h
  | cons op rest ih =>
    exact ih _ (applyLinkAddrOp_preserves_StateWF st op h)


/-- C10: the interface-address table of the fake socket tracks the link
table exactly — over any call sequence from the empty state the two tables
share their key set; `addLink` of a fresh index stores the link together
with an empty address list and resolves 0; `addLink` of a present index
resolves `-EEXIST` without change; `addIfAddress`/`deleteIfAddress` on an
ifIndex missing from the address table resolve `-ENXIOerr` without change; and
every stored address references a stored link. -/
theorem C10_ifaddr_keys_track_links :
    (∀ ops : List LinkAddrOp,
      (applyLinkAddrOps FakeState.empty ops).ifAddrs.map Prod.fst =
        (applyLinkAddrOps FakeState.empty ops).links.map Prod.fst) ∧
    (∀ (st : FakeState) (link : Link),
      alistGet link.ifIndex st.links = none →
      alistGet link.ifIndex st.ifAddrs = none →
      FakeNetlinkProtocolSocket.addLink st link =
        ({ st with
            links := st.links ++ [(link.ifIndex, link)],
            ifAddrs := st.ifAddrs ++ [(link.ifIndex, [])] }, 0)) ∧
    (∀ (st : FakeState) (link : Link),
      (alistGet link.ifIndex st.links).isSome →
      FakeNetlinkProtocolSocket.addLink st link = (st, -EEXIST)) ∧
    (∀ (st : FakeState) (a : IfAddress),
      alistGet a.ifIndex st.ifAddrs = none →
      FakeNetlinkProtocolSocket.addIfAddress st a = (st, -ENXIOerr) ∧
      FakeNetlinkProtocolSocket.deleteIfAddress st a = (st, -ENXIOerr)) ∧
    (∀ (ops : List LinkAddrOp) (a : IfAddress),
      a ∈ FakeNetlinkProtocolSocket.getAllIfAddresses
        (applyLinkAddrOps FakeState.empty ops) →
      (alistGet a.ifIndex (applyLinkAddrOps FakeState.empty ops).links).isSome) := by
  have hempty : StateWF FakeState.empty := by decide
  refine ⟨?_, ?_, ?_, ?_, ?_⟩
  · intro ops
    exact (applyLinkAddrOps_StateWF ops FakeState.empty hempty).keysEq
  · intro st link hl ha
    unfold FakeNetlinkProtocolSocket.addLink
    rw [if_neg (by rw [hl]; simp), alistEmplace_of_none _ _ _ hl,
      alistEmplace_of_none _ _ _ ha]
  · intro st link hp
    unfold FakeNetlinkProtocolSocket.addLink
    rw [if_pos hp]
  · intro st a hg
    constructor
    · simp only [FakeNetlinkProtocolSocket.addIfAddress, hg]
    · simp only [FakeNetlinkProtocolSocket.deleteIfAddress, hg]
  · intro ops a hmem
    have hwf := applyLinkAddrOps_StateWF ops FakeState.empty hempty
    obtain ⟨p, hp, hap⟩ := (mem_getAllIfAddresses _ a).mp hmem
    have hidx := hwf.addrKey p hp a hap
    rw [alistGet_isSome_iff, ← hwf.keysEq, hidx]
    exact List.mem_map.mpr ⟨p, hp, rfl⟩

/-- Witness for C10 on a two-call sequence and the one-link state `st1`. -/
theorem C10_ifaddr_keys_track_links_witness :
    ((applyLinkAddrOps FakeState.empty
        [LinkAddrOp.addLink Samples.linkEth0,
          LinkAddrOp.addAddr Samples.addrEth0]).ifAddrs.map Prod.fst =
      (applyLinkAddrOps FakeState.empty
        [LinkAddrOp.addLink Samples.linkEth0,
          LinkAddrOp.addAddr Samples.addrEth0]).links.map Prod.fst) ∧
    (FakeNetlinkProtocolSocket.addLink Samples.st1 Samples.linkLo =
      ({ Samples.st1 with
          links := Samples.st1.links ++ [(Samples.linkLo.ifIndex, Samples.linkLo)],
          ifAddrs := Samples.st1.ifAddrs ++ [(Samples.linkLo.ifIndex, [])] },
        0)) ∧
    (FakeNetlinkProtocolSocket.addLink Samples.st1 Samples.linkEth0 =
      (Samples.st1, -EEXIST)) ∧
    (FakeNetlinkProtocolSocket.addIfAddress Samples.st1
        ⟨9, some Samples.pfx192, 0⟩ = (Samples.st1, -ENXIOerr)) ∧
    ((alistGet Samples.addrEth0.ifIndex
      (applyLinkAddrOps FakeState.empty
        [LinkAddrOp.addLink Samples.linkEth0,
          LinkAddrOp.addAddr Samples.addrEth0]).links).isSome) := by
  have h := C10_ifaddr_keys_track_links
  exact ⟨h.1 _,
    h.2.1 Samples.st1 Samples.linkLo (by decide) (by decide),
    h.2.2.1 Samples.st1 Samples.linkEth0 (by decide),
    (h.2.2.2.1 Samples.st1 ⟨9, some Samples.pfx192, 0⟩ (by decide)).1,
    h.2.2.2.2 _ Samples.addrEth0 (by decide)⟩


/-! # Claim C3 -/

theorem addRoute_preserves_routeTablesWF (st : FakeState) (r : Route)
    (st1 : FakeState) (ret : Int)
    (h : FakeNetlinkProtocolSocket.addRoute st r = .ok (st1, ret))
    (hwf : routeTablesWF st) : routeTablesWF st1 := by
  obtain ⟨hU, hUi, hM, hMi⟩ := hwf
  by_cases hf : r.family = AF_MPLS
  · rcases hl : r.mplsLabel with _ | lbl
    · simp [FakeNetlinkProtocolSocket.addRoute, hf, hl] at h
    · have hi : (((alistGet r.protocolId st.mplsRoutes).getD []).map
          Prod.fst).Nodup := by
        rcases hg : alistGet r.protocolId st.mplsRoutes with _ | inner
        · simp
        · simpa using hMi _ (alistGet_mem _ _ _ hg)
      simp only [FakeNetlinkProtocolSocket.addRoute, hf, hl, if_true,
        Except.ok.injEq, Prod.mk.injEq] at h
      obtain ⟨h1, -⟩ := h
      subst h1
      refine ⟨hU, hUi, alistInsert_keys_nodup _ _ _ hM, ?_⟩
      intro p hp
      rcases alistInsert_mem _ _ _ _ hp with h2 | h2
      · subst h2
        exact alistInsert_keys_nodup _ _ _ hi
      · exact hMi p h2
  · have hi : (((alistGet r.protocolId st.unicastRoutes).getD []).map
        Prod.fst).Nodup := by
      rcases hg : alistGet r.protocolId st.unicastRoutes with _ | inner
      · simp
      · simpa using hUi _ (alistGet_mem _ _ _ hg)
    simp only [FakeNetlinkProtocolSocket.addRoute, hf, if_false,
      Except.ok.injEq, Prod.mk.injEq] at h
    obtain ⟨h1, -⟩ := h
    subst h1
    refine ⟨alistInsert_keys_nodup _ _ _ hU, ?_, hM, hMi⟩
    intro p hp
    rcases alistInsert_mem _ _ _ _ hp with h2 | h2
    · subst h2
      exact alistInsert_keys_nodup _ _ _ hi
    · exact hUi p h2

theorem deleteRoute_preserves_routeTablesWF (st : FakeState) (r : Route)
    (st1 : FakeState) (ret : Int)
    (h : FakeNetlinkProtocolSocket.deleteRoute st r = .ok (st1, ret))
    (hwf : routeTablesWF st) : routeTablesWF st1 := by
  obtain ⟨hU, hUi, hM, hMi⟩ := hwf
  by_cases hf : r.family = AF_MPLS
  · rcases hl : r.mplsLabel with _ | lbl
    · simp [FakeNetlinkProtocolSocket.deleteRoute, hf, hl] at h
    · have hi : (((alistGet r.protocolId st.mplsRoutes).getD []).map
          Prod.fst).Nodup := by
        rcases hg : alistGet r.protocolId st.mplsRoutes with _ | inner
        · simp
        · simpa using hMi _ (alistGet_mem _ _ _ hg)
      simp only [FakeNetlinkProtocolSocket.deleteRoute, hf, hl, if_true,
        Except.ok.injEq, Prod.mk.injEq] at h
      obtain ⟨h1, -⟩ := h
      subst h1
      refine ⟨hU, hUi, alistInsert_keys_nodup _ _ _ hM, ?_⟩
      intro p hp
      rcases alistInsert_mem _ _ _ _ hp with h2 | h2
      · subst h2
        exact alistErase_keys_nodup _ _ hi
      · exact hMi p h2
  · have hi : (((alistGet r.protocolId st.unicastRoutes).getD []).map
        Prod.fst).Nodup := by
      rcases hg : alistGet r.protocolId st.unicastRoutes with _ | inner
      · simp
      · simpa using hUi _ (alistGet_mem _ _ _ hg)
    simp only [FakeNetlinkProtocolSocket.deleteRoute, hf, if_false,
      Except.ok.injEq, Prod.mk.injEq] at h
    obtain ⟨h1, -⟩ := h
    subst h1
    refine ⟨alistInsert_keys_nodup _ _ _ hU, ?_, hM, hMi⟩
    intro p hp
    rcases alistInsert_mem _ _ _ _ hp with h2 | h2
    · subst h2
      exact alistErase_keys_nodup _ _ hi
    · exact hUi p h2

theorem applyRouteOp_preserves_routeTablesWF (st : FakeState) (op : RouteOp)
    (st2 : FakeState) (h : applyRouteOp st op = .ok st2)
    (hwf : routeTablesWF st) : routeTablesWF st2 := by
  cases op with
  | add r =>
    simp only [applyRouteOp] at h
    rcases ha : FakeNetlinkProtocolSocket.addRoute st r with e | pr
    · rw [ha] at h
      simp only [Except.map] at h
      exact Except.noConfusion h
    · obtain ⟨s2, ret⟩ := pr
      rw [ha] at h
      simp only [Except.map] at h
      obtain rfl : s2 = st2 := Except.ok.inj h
      exact addRoute_preserves_routeTablesWF st r s2 ret ha hwf
  | del r =>
    simp only [applyRouteOp] at h
    rcases ha : FakeNetlinkProtocolSocket.deleteRoute st r with e | pr
    · rw [ha] at h
      simp only [Except.map] at h
      exact Except.noConfusion h
    · obtain ⟨s2, ret⟩ := pr
      rw [ha] at h
      simp only [Except.map] at h
      obtain rfl : s2 = st2 := Except.ok.inj h
      exact deleteRoute_preserves_routeTablesWF st r s2 ret ha hwf

theorem applyRouteOps_routeTablesWF (ops : List RouteOp) (st st1 : FakeState)
    (h0 : routeTablesWF st) (h : applyRouteOps st ops = .ok st1) :
    routeTablesWF st1 := by
  induction ops generalizing st with
  | nil =>
    unfold applyRouteOps at h
    obtain rfl : st = st1 := Except.ok.inj h
    exact h0
  | cons op rest ih =>
    unfold applyRouteOps at h
    rcases hop : applyRouteOp st op with e | st2
    · rw [hop] at h
      exact Except.noConfusion h
    · rw [hop] at h
      exact ih st2 (applyRouteOp_preserves_routeTablesWF st op st2 hop h0) h

/-- C3: over every sequence of add-route / delete-route calls from the
empty state the stored tables keep unicast routes uniquely keyed by
(protocolId, destination) and MPLS routes by (protocolId, mplsLabel); and
adding a route whose key is already present resolves 0 and replaces the
prior entry — the stored route under the key becomes the new route (new
next-hop set included) and the per-protocol table keeps its size, with no
duplicate created. -/
theorem C3_route_tables_uniquely_keyed :
    (∀ (ops : List RouteOp) (st1 : FakeState),
      applyRouteOps FakeState.empty ops = .ok st1 → routeTablesWF st1) ∧
    (∀ (st : FakeState) (r : Route), routeTablesWF st → r.family ≠ AF_MPLS →
      ∃ st1, FakeNetlinkProtocolSocket.addRoute st r = .ok (st1, 0) ∧
        routeKeyLookup st1 r = some r ∧ routeTablesWF st1 ∧
        ((routeKeyLookup st r).isSome →
          ((alistGet r.protocolId st1.unicastRoutes).getD []).length =
            ((alistGet r.protocolId st.unicastRoutes).getD []).length)) ∧
    (∀ (st : FakeState) (r : Route) (lbl : Nat), routeTablesWF st →
      r.family = AF_MPLS → r.mplsLabel = some lbl →
      ∃ st1, FakeNetlinkProtocolSocket.addRoute st r = .ok (st1, 0) ∧
        routeKeyLookup st1 r = some r ∧ routeTablesWF st1 ∧
        ((routeKeyLookup st r).isSome →
          ((alistGet r.protocolId st1.mplsRoutes).getD []).length =
            ((alistGet r.protocolId st.mplsRoutes).getD []).length)) := by
  refine ⟨?_, ?_, ?_⟩
  · intro ops st1 h
    exact applyRouteOps_routeTablesWF ops FakeState.empty st1 (by decide) h
  · intro st r hwf hf
    have hadd : FakeNetlinkProtocolSocket.addRoute st r =
        .ok ({ st with
                unicastRoutes := alistInsert r.protocolId
                  (alistInsert r.getDestination r
                    ((alistGet r.protocolId st.unicastRoutes).getD []))
                  st.unicastRoutes },
             0) := by
      unfold FakeNetlinkProtocolSocket.addRoute
      rw [if_neg hf]
    refine ⟨_, hadd, ?_, ?_, ?_⟩
    · unfold routeKeyLookup
      rw [if_neg hf]
      simp only [alistGet_insert_self, Option.getD_some]
    · exact addRoute_preserves_routeTablesWF st r _ 0 hadd hwf
    · intro hpresent
      unfold routeKeyLookup at hpresent
      rw [if_neg hf] at hpresent
      simp only [alistGet_insert_self, Option.getD_some]
      refine alistInsert_length_of_mem _ _ _ ?_
      rw [← alistGet_isSome_iff]
      exact hpresent
  · intro st r lbl hwf hf hl
    have hadd : FakeNetlinkProtocolSocket.addRoute st r =
        .ok ({ st with
                mplsRoutes := alistInsert r.protocolId
                  (alistInsert lbl r
                    ((alistGet r.protocolId st.mplsRoutes).getD []))
                  st.mplsRoutes },
             0) := by
      unfold FakeNetlinkProtocolSocket.addRoute
      rw [if_pos hf, hl]
    refine ⟨_, hadd, ?_, ?_, ?_⟩
    · unfold routeKeyLookup
      rw [if_pos hf, hl]
      simp only [alistGet_insert_self, Option.getD_some]
    · exact addRoute_preserves_routeTablesWF st r _ 0 hadd hwf
    · intro hpresent
      unfold routeKeyLookup at hpresent
      rw [if_pos hf, hl] at hpresent
      simp only [alistGet_insert_self, Option.getD_some]
      refine alistInsert_length_of_mem _ _ _ ?_
      rw [← alistGet_isSome_iff]
      exact hpresent

/-- Witness for C3: adding `10.0.0.0/8` twice under protocol 99 with
different next-hop sets replaces the entry; `getRoutes` filtered by the
protocol returns exactly the route with the new next-hop set. -/
theorem C3_route_tables_uniquely_keyed_witness :
    (applyRouteOps FakeState.empty
        [RouteOp.add Samples.routeU1, RouteOp.add Samples.routeU2] =
      .ok Samples.stRoutes2 ∧
      routeTablesWF Samples.stRoutes2) ∧
    (routeTablesWF Samples.stRoutes ∧
      Samples.routeU2.family ≠ AF_MPLS ∧
      (routeKeyLookup Samples.stRoutes Samples.routeU2).isSome ∧
      (∃ st1, FakeNetlinkProtocolSocket.addRoute Samples.stRoutes
          Samples.routeU2 = .ok (st1, 0) ∧
        routeKeyLookup st1 Samples.routeU2 = some Samples.routeU2 ∧
        routeTablesWF st1 ∧
        ((routeKeyLookup Samples.stRoutes Samples.routeU2).isSome →
          ((alistGet Samples.routeU2.protocolId
              st1.unicastRoutes).getD []).length =
            ((alistGet Samples.routeU2.protocolId
              Samples.stRoutes.unicastRoutes).getD []).length))) ∧
    FakeNetlinkProtocolSocket.getRoutes Samples.stRoutes2 Samples.fltProto99 =
      [Samples.routeU2] := by
  refine ⟨⟨by rfl, ?_⟩, ⟨by decide, by decide, by decide, ?_⟩, by rfl⟩
  · exact C3_route_tables_uniquely_keyed.1
      [RouteOp.add Samples.routeU1, RouteOp.add Samples.routeU2]
      Samples.stRoutes2 (by rfl)
  · exact C3_route_tables_uniquely_keyed.2.1 Samples.stRoutes Samples.routeU2
      (by decide) (by decide)


/-! # Claim C4 -/

theorem alistGet_append_of_none {κ α : Type} [DecidableEq κ] (k : κ)
    (l1 l2 : List (κ × α)) (h : alistGet k l1 = none) :
    alistGet k (l1 ++ l2) = alistGet k l2 := by
  induction l1 with
  | nil => rfl
  | cons p rest ih =>
    obtain ⟨k1, v1⟩ := p
    rw [alistGet] at h
    by_cases h1 : k1 = k
    · rw [if_pos h1] at h
      exact Option.noConfusion h
    · rw [if_neg h1] at h
      rw [List.cons_append, alistGet, if_neg h1]
      exact ih h

theorem alistGet_append_left {κ α : Type} [DecidableEq κ] (k : κ)
    (l1 l2 : List (κ × α)) (v : α) (h : alistGet k l1 = some v) :
    alistGet k (l1 ++ l2) = some v := by
  induction l1 with
  | nil => exact Option.noConfusion h
  | cons p rest ih =>
    obtain ⟨k1, v1⟩ := p
    rw [alistGet] at h
    by_cases h1 : k1 = k
    · rw [if_pos h1] at h
      rw [List.cons_append, alistGet, if_pos h1]
      exact h
    · rw [if_neg h1] at h
      rw [List.cons_append, alistGet, if_neg h1]
      exact ih h

theorem buildLinkMapFrom_eq (links : List Link) (m : List (Int × ThriftLink))
    (hdisj : ∀ l ∈ links, alistGet l.ifIndex m = none)
    (hnodup : (links.map Link.ifIndex).Nodup) :
    NetlinkSystemHandler.buildLinkMapFrom m links =
      m ++ links.map
        (fun l => (l.ifIndex, NetlinkSystemHandler.mkThriftLink l)) := by
  induction links generalizing m with
  | nil => simp [NetlinkSystemHandler.buildLinkMapFrom]
  | cons l rest ih =>
    simp only [List.map_cons, List.nodup_cons] at hnodup
    rw [NetlinkSystemHandler.buildLinkMapFrom,
      alistEmplace_of_none _ _ _ (hdisj l (List.mem_cons_self l rest))]
    rw [ih (m ++ [(l.ifIndex, NetlinkSystemHandler.mkThriftLink l)]) ?_ hnodup.2]
    · simp
    · intro l2 hl2
      rw [alistGet_append_of_none _ _ _ (hdisj l2 (List.mem_cons_of_mem l hl2))]
      have hne : l.ifIndex ≠ l2.ifIndex := by
        intro hc
        exact hnodup.1 (hc ▸ List.mem_map.mpr ⟨l2, hl2, rfl⟩)
      rw [alistGet, if_neg hne]
      rfl

theorem addLinkNetworks_spec (addrs : List IfAddress)
    (m : List (Int × ThriftLink))
    (h : ∀ a ∈ addrs,
      (alistGet a.ifIndex m).isSome ∧ (IfAddress.getPrefix a).isSome)
    (hnodup : (m.map Prod.fst).Nodup) :
    ∃ m1, NetlinkSystemHandler.addLinkNetworks m addrs = .ok m1 ∧
      m1.map Prod.fst = m.map Prod.fst ∧
      ∀ k, alistGet k m1 = (alistGet k m).map
        (fun tl => { tl with networks := tl.networks ++ networksFor k addrs }) := by
  induction addrs generalizing m with
  | nil =>
    refine ⟨m, rfl, rfl, ?_⟩
    intro k
    rcases alistGet k m with _ | tl <;> simp [networksFor]
  | cons a rest ih =>
    obtain ⟨hk, hp⟩ := h a (List.mem_cons_self a rest)
    obtain ⟨p, hpd⟩ := Option.isSome_iff_exists.mp hp
    have hred : NetlinkSystemHandler.addLinkNetworks m (a :: rest) =
        NetlinkSystemHandler.addLinkNetworks
          (alistModify a.ifIndex
            (fun tl => { tl with networks := tl.networks ++ [toIpPrefix p] }) m)
          rest := by
      rw [NetlinkSystemHandler.addLinkNetworks,
        if_neg (by rw [Bool.not_eq_true, Option.isNone_eq_false_iff]; exact hk),
        hpd]
    have hkeys2 : (alistModify a.ifIndex
        (fun tl => { tl with networks := tl.networks ++ [toIpPrefix p] })
        m).map Prod.fst = m.map Prod.fst := alistModify_map_fst _ _ _
    obtain ⟨m1, hm1, hkeys, hget⟩ := ih
      (alistModify a.ifIndex
        (fun tl => { tl with networks := tl.networks ++ [toIpPrefix p] }) m)
      (by
        intro b hb
        obtain ⟨hb1, hb2⟩ := h b (List.mem_cons_of_mem a hb)
        refine ⟨?_, hb2⟩
        rw [alistGet_isSome_iff, hkeys2, ← alistGet_isSome_iff]
        exact hb1)
      (by rw [hkeys2]; exact hnodup)
    refine ⟨m1, hred ▸ hm1, hkeys.trans hkeys2, ?_⟩
    intro k
    rw [hget k]
    by_cases hik : a.ifIndex = k
    · subst hik
      rw [alistGet_modify_self _ _ _ hnodup]
      rcases hgm : alistGet a.ifIndex m with _ | tl
      · rfl
      · simp [networksFor, List.filterMap_cons, hpd, toIpPrefix,
          List.append_assoc]
    · rw [alistGet_modify_ne _ _ _ _ (fun hc => hik hc.symm)]
      rcases hgm : alistGet k m with _ | tl
      · rfl
      · simp [networksFor, List.filterMap_cons, hik]


/-- C4: `semifuture_getAllLinks` returns one `thrift::Link` entry per
kernel link — same name, index and up-state — each augmented with exactly
the address prefixes whose ifIndex matches that link. -/
theorem C4_getAllLinks_augments_networks (st : FakeState) (hwf : StateWF st) :
    ∃ res, NetlinkSystemHandler.semifuture_getAllLinks st = .ok res ∧
      res.length = st.links.length ∧
      (∀ kl ∈ st.links, ∃ tl ∈ res,
        ThriftLink.ifIndex tl = kl.1 ∧
        ThriftLink.ifName tl = Link.linkName kl.2 ∧
        ThriftLink.isUp tl = Link.isUp kl.2 ∧
        ThriftLink.networks tl = networksFor kl.1
          (FakeNetlinkProtocolSocket.getAllIfAddresses st)) ∧
      (∀ tl ∈ res, ∃ kl ∈ st.links,
        ThriftLink.ifIndex tl = kl.1 ∧
        ThriftLink.ifName tl = Link.linkName kl.2 ∧
        ThriftLink.isUp tl = Link.isUp kl.2 ∧
        ThriftLink.networks tl = networksFor kl.1
          (FakeNetlinkProtocolSocket.getAllIfAddresses st)) := by
  obtain ⟨hkeysEq, hkeysNodup, hlinkKey, haddrKey, haddrSome, hpfxNodup⟩ := hwf
  have hlnodup : (st.links.map Prod.fst).Nodup := hkeysEq ▸ hkeysNodup
  have hidxmap : (FakeNetlinkProtocolSocket.getAllLinks st).map Link.ifIndex =
      st.links.map Prod.fst := by
    unfold FakeNetlinkProtocolSocket.getAllLinks
    rw [List.map_map]
    exact List.map_congr_left hlinkKey
  have hmEq : NetlinkSystemHandler.buildLinkMap
      (FakeNetlinkProtocolSocket.getAllLinks st) =
      (FakeNetlinkProtocolSocket.getAllLinks st).map
        (fun l => (l.ifIndex, NetlinkSystemHandler.mkThriftLink l)) := by
    unfold NetlinkSystemHandler.buildLinkMap
    rw [buildLinkMapFrom_eq (FakeNetlinkProtocolSocket.getAllLinks st) []
      (fun l _ => rfl) (by rw [hidxmap]; exact hlnodup)]
    rfl
  have hmKeys : ((FakeNetlinkProtocolSocket.getAllLinks st).map
      (fun l => (l.ifIndex, NetlinkSystemHandler.mkThriftLink l))).map Prod.fst =
      st.links.map Prod.fst := by
    rw [List.map_map, ← hidxmap]
    rfl
  have hmNodup : (((FakeNetlinkProtocolSocket.getAllLinks st).map
      (fun l => (l.ifIndex, NetlinkSystemHandler.mkThriftLink l))).map
        Prod.fst).Nodup := by
    rw [hmKeys]
    exact hlnodup
  obtain ⟨m1, hm1, hm1Keys, hm1Get⟩ := addLinkNetworks_spec
    (FakeNetlinkProtocolSocket.getAllIfAddresses st)
    ((FakeNetlinkProtocolSocket.getAllLinks st).map
      (fun l => (l.ifIndex, NetlinkSystemHandler.mkThriftLink l)))
    (by
      intro a ha
      obtain ⟨p, hp, hap⟩ := (mem_getAllIfAddresses st a).mp ha
      refine ⟨?_, haddrSome p hp a hap⟩
      rw [alistGet_isSome_iff, hmKeys, ← hkeysEq, haddrKey p hp a hap]
      exact List.mem_map.mpr ⟨p, hp, rfl⟩)
    hmNodup
  have heq : NetlinkSystemHandler.semifuture_getAllLinks st =
      .ok (m1.map Prod.snd) := by
    unfold NetlinkSystemHandler.semifuture_getAllLinks
    rw [hmEq, hm1]
    rfl
  have hGetLink : ∀ kl ∈ st.links,
      alistGet kl.1 ((FakeNetlinkProtocolSocket.getAllLinks st).map
        (fun l => (l.ifIndex, NetlinkSystemHandler.mkThriftLink l))) =
      some (NetlinkSystemHandler.mkThriftLink kl.2) := by
    intro kl hkl
    refine alistGet_eq_some_of_mem_nodup _ _ _ hmNodup ?_
    have hm2 : (kl.2.ifIndex, NetlinkSystemHandler.mkThriftLink kl.2) ∈
        (FakeNetlinkProtocolSocket.getAllLinks st).map
          (fun l => (l.ifIndex, NetlinkSystemHandler.mkThriftLink l)) :=
      List.mem_map.mpr ⟨kl.2, List.mem_map.mpr ⟨kl, hkl, rfl⟩, rfl⟩
    rw [hlinkKey kl hkl] at hm2
    exact hm2
  refine ⟨m1.map Prod.snd, heq, ?_, ?_, ?_⟩
  · have h1 : m1.length = st.links.length := by
      have h2 := congrArg List.length (hm1Keys.trans hmKeys)
      simpa using h2
    simpa using h1
  · intro kl hkl
    have hg := hm1Get kl.1
    rw [hGetLink kl hkl] at hg
    simp only [Option.map_some'] at hg
    refine ⟨_, List.mem_map.mpr ⟨(kl.1, _), alistGet_mem _ _ _ hg, rfl⟩,
      ?_, ?_, ?_, ?_⟩ <;>
      simp [NetlinkSystemHandler.mkThriftLink, hlinkKey kl hkl]
  · intro tl htl
    obtain ⟨q, hq, hqtl⟩ := List.mem_map.mp htl
    obtain ⟨k, tl2⟩ := q
    have hkmem : k ∈ st.links.map Prod.fst := by
      rw [← hmKeys, ← hm1Keys]
      exact List.mem_map.mpr ⟨(k, tl2), hq, rfl⟩
    obtain ⟨kl, hkl, hklk⟩ := List.mem_map.mp hkmem
    have hm1Nodup : (m1.map Prod.fst).Nodup := by
      rw [hm1Keys]
      exact hmNodup
    have hgtl : alistGet k m1 = some tl2 :=
      alistGet_eq_some_of_mem_nodup _ _ _ hm1Nodup hq
    have hg := hm1Get k
    rw [hgtl, ← hklk, hGetLink kl hkl] at hg
    simp only [Option.map_some', Option.some.injEq] at hg
    refine ⟨kl, hkl, ?_⟩
    rw [← hqtl]
    rw [hg]
    constructor
    · simp [NetlinkSystemHandler.mkThriftLink, hlinkKey kl hkl, hklk]
    constructor
    · simp [NetlinkSystemHandler.mkThriftLink]
    constructor
    · simp [NetlinkSystemHandler.mkThriftLink]
    · simp [NetlinkSystemHandler.mkThriftLink, hklk]


/-- Witness for C4 at the two-link scenario: the result has exactly two
entries, the entry for index 1 carries the single network 10.0.0.1/24 and
the entry for index 2 carries zero networks. -/
theorem C4_getAllLinks_augments_networks_witness :
    StateWF Samples.stC4 ∧
    (∃ res, NetlinkSystemHandler.semifuture_getAllLinks Samples.stC4 = .ok res ∧
      res.length = Samples.stC4.links.length ∧
      (∀ kl ∈ Samples.stC4.links, ∃ tl ∈ res,
        ThriftLink.ifIndex tl = kl.1 ∧
        ThriftLink.ifName tl = Link.linkName kl.2 ∧
        ThriftLink.isUp tl = Link.isUp kl.2 ∧
        ThriftLink.networks tl = networksFor kl.1
          (FakeNetlinkProtocolSocket.getAllIfAddresses Samples.stC4)) ∧
      (∀ tl ∈ res, ∃ kl ∈ Samples.stC4.links,
        ThriftLink.ifIndex tl = kl.1 ∧
        ThriftLink.ifName tl = Link.linkName kl.2 ∧
        ThriftLink.isUp tl = Link.isUp kl.2 ∧
        ThriftLink.networks tl = networksFor kl.1
          (FakeNetlinkProtocolSocket.getAllIfAddresses Samples.stC4))) ∧
    NetlinkSystemHandler.semifuture_getAllLinks Samples.stC4 =
      .ok [⟨Samples.eth0Name, 1, true, [Samples.pfx10001]⟩,
           ⟨Samples.loName, 2, true, []⟩] := by
  refine ⟨?_, ?_, by rfl⟩
  · exact ⟨by decide, by decide, by decide, by decide, by decide, by decide⟩
  · exact C4_getAllLinks_augments_networks Samples.stC4
      ⟨by decide, by decide, by decide, by decide, by decide, by decide⟩


/-! # Claim C7 -/

/-- Counterexample to C7 as stated: with no links at all, each System
Handler address operation invoked for interface name "eth0" surfaces
`std::bad_optional_access` — the generic failure of dereferencing an
empty optional — and not the explicit not-found result the claim
promises. -/
theorem C7_counterexample_bad_optional_access :
    NetlinkSystemHandler.getIfIndex FakeState.empty Samples.eth0Name = none ∧
    NetlinkSystemHandler.semifuture_addIfaceAddresses FakeState.empty
      Samples.eth0Name [Samples.pfx10001] = .error .badOptionalAccess ∧
    NetlinkSystemHandler.semifuture_removeIfaceAddresses FakeState.empty
      Samples.eth0Name [Samples.pfx10001] = .error .badOptionalAccess ∧
    NetlinkSystemHandler.semifuture_getIfaceAddresses FakeState.empty
      Samples.eth0Name 0 0 = .error .badOptionalAccess ∧
    NetlinkSystemHandler.semifuture_syncIfaceAddresses FakeState.empty
      Samples.eth0Name 0 0 [] = .error .badOptionalAccess ∧
    CppError.badOptionalAccess ≠ CppError.notFound :=
  ⟨rfl, rfl, rfl, rfl, rfl, by decide⟩

/-- C7 (amended): `getIfIndex` reports an unknown interface name as an
explicit empty optional, but all four System Handler address operations
dereference that optional with `.value()`, so their caller observes the
generic `std::bad_optional_access` failure rather than an explicit
not-found result. -/
theorem C7_unknown_name_generic_failure (st : FakeState) (ifName : String)
    (family scope : Nat) (addrs : List IpPrefix)
    (h : NetlinkSystemHandler.getIfIndex st ifName = none) :
    NetlinkSystemHandler.semifuture_addIfaceAddresses st ifName addrs =
      .error .badOptionalAccess ∧
    NetlinkSystemHandler.semifuture_removeIfaceAddresses st ifName addrs =
      .error .badOptionalAccess ∧
    NetlinkSystemHandler.semifuture_getIfaceAddresses st ifName family scope =
      .error .badOptionalAccess ∧
    NetlinkSystemHandler.semifuture_syncIfaceAddresses st ifName family scope
      addrs = .error .badOptionalAccess := by
  refine ⟨?_, ?_, ?_, ?_⟩
  · unfold NetlinkSystemHandler.semifuture_addIfaceAddresses
      NetlinkSystemHandler.addRemoveIfAddresses
    rw [h]
  · unfold NetlinkSystemHandler.semifuture_removeIfaceAddresses
      NetlinkSystemHandler.addRemoveIfAddresses
    rw [h]
  · unfold NetlinkSystemHandler.semifuture_getIfaceAddresses
    rw [h]
  · unfold NetlinkSystemHandler.semifuture_syncIfaceAddresses
    rw [h]

/-- Witness for the amended C7 at the empty state. -/
theorem C7_unknown_name_generic_failure_witness :
    NetlinkSystemHandler.getIfIndex FakeState.empty Samples.loName = none ∧
    (NetlinkSystemHandler.semifuture_addIfaceAddresses FakeState.empty
        Samples.loName [] = .error .badOptionalAccess ∧
      NetlinkSystemHandler.semifuture_removeIfaceAddresses FakeState.empty
        Samples.loName [] = .error .badOptionalAccess ∧
      NetlinkSystemHandler.semifuture_getIfaceAddresses FakeState.empty
        Samples.loName 2 0 = .error .badOptionalAccess ∧
      NetlinkSystemHandler.semifuture_syncIfaceAddresses FakeState.empty
        Samples.loName 2 0 [] = .error .badOptionalAccess) :=
  ⟨by decide,
    C7_unknown_name_generic_failure FakeState.empty Samples.loName 2 0 []
      (by decide)⟩


/-! # Claim C1 -/

theorem alistInsert_get_self {κ α : Type} [DecidableEq κ] (k : κ) (v : α)
    (l : List (κ × α)) (h : alistGet k l = some v) : alistInsert k v l = l := by
  induction l with
  | nil => exact Option.noConfusion h
  | cons p rest ih =>
    obtain ⟨k1, v1⟩ := p
    rw [alistGet] at h
    by_cases h1 : k1 = k
    · rw [if_pos h1] at h
      rw [alistInsert, if_pos h1, ← h1, ← Option.some.inj h]
    · rw [if_neg h1] at h
      rw [alistInsert, if_neg h1, ih h]

theorem alistModify_eq_insert {κ α : Type} [DecidableEq κ] (k : κ) (v : α)
    (f : α → α) (l : List (κ × α)) (h : alistGet k l = some v) :
    alistModify k f l = alistInsert k (f v) l := by
  induction l with
  | nil => exact Option.noConfusion h
  | cons p rest ih =>
    obtain ⟨k1, v1⟩ := p
    rw [alistGet] at h
    by_cases h1 : k1 = k
    · rw [if_pos h1] at h
      rw [alistModify, if_pos h1, alistInsert, if_pos h1, ← h1,
        ← Option.some.inj h]
    · rw [if_neg h1] at h
      rw [alistModify, if_neg h1, alistInsert, if_neg h1, ih h]

theorem alistInsert_insert {κ α : Type} [DecidableEq κ] (k : κ) (x y : α)
    (l : List (κ × α)) :
    alistInsert k x (alistInsert k y l) = alistInsert k x l := by
  induction l with
  | nil => simp [alistInsert]
  | cons p rest ih =>
    obtain ⟨k1, v1⟩ := p
    by_cases h1 : k1 = k
    · rw [alistInsert, if_pos h1, alistInsert, if_pos rfl, alistInsert,
        if_pos h1]
    · rw [alistInsert, if_neg h1, alistInsert, if_neg h1, alistInsert,
        if_neg h1, ih]

theorem filterMap_flatten_entry (al : List (Int × List IfAddress)) (i : Int)
    (lst : List IfAddress) (f : IfAddress → Option IpPrefix)
    (hkeys : ∀ p ∈ al, ∀ a ∈ p.2, a.ifIndex = p.1)
    (hnodup : (al.map Prod.fst).Nodup)
    (hget : alistGet i al = some lst)
    (hf : ∀ a : IfAddress, a.ifIndex ≠ i → f a = none) :
    ((al.map Prod.snd).flatten).filterMap f = lst.filterMap f := by
  induction al with
  | nil => exact Option.noConfusion hget
  | cons p rest ih =>
    obtain ⟨k, v⟩ := p
    simp only [List.map_cons, List.nodup_cons] at hnodup
    rw [alistGet] at hget
    rw [List.map_cons, List.flatten_cons, List.filterMap_append]
    by_cases h1 : k = i
    · rw [if_pos h1] at hget
      have hrest : ((rest.map Prod.snd).flatten).filterMap f = [] := by
        rw [List.filterMap_eq_nil_iff]
        intro a ha
        obtain ⟨l2, hl2, hal2⟩ := List.mem_flatten.mp ha
        obtain ⟨q, hq, rfl⟩ := List.mem_map.mp hl2
        refine hf a ?_
        rw [hkeys q (List.mem_cons_of_mem _ hq) a hal2, ← h1]
        intro hc
        exact hnodup.1 (hc ▸ List.mem_map.mpr ⟨q, hq, rfl⟩)
      rw [hrest, Option.some.inj hget, List.append_nil]
    · rw [if_neg h1] at hget
      have hv : v.filterMap f = [] := by
        rw [List.filterMap_eq_nil_iff]
        intro a ha
        refine hf a ?_
        rw [hkeys (k, v) (List.mem_cons_self _ _) a ha]
        exact h1
      rw [hv, List.nil_append]
      exact ih (fun q hq => hkeys q (List.mem_cons_of_mem _ hq)) hnodup.2 hget

theorem filterMap_pfx_nodup (lst : List IfAddress)
    (f : IfAddress → Option IpPrefix)
    (hf : ∀ a, f a = none ∨ f a = IfAddress.getPrefix a)
    (h : (lst.map IfAddress.getPrefix).Nodup) : (lst.filterMap f).Nodup := by
  induction lst with
  | nil => simp
  | cons a rest ih =>
    simp only [List.map_cons, List.nodup_cons] at h
    rw [List.filterMap_cons]
    rcases hfa : f a with _ | p
    · exact ih h.2
    · rw [List.nodup_cons]
      refine ⟨?_, ih h.2⟩
      intro hp
      obtain ⟨b, hb, hfb⟩ := List.mem_filterMap.mp hp
      rcases hf b with h4 | h4
      · rw [h4] at hfb
        exact Option.noConfusion hfb
      · rw [h4] at hfb
        rcases hf a with h5 | h5
        · rw [h5] at hfa
          exact Option.noConfusion hfa
        · rw [h5] at hfa
          refine h.1 ?_
          rw [hfa, ← hfb]
          exact List.mem_map.mpr ⟨b, hb, rfl⟩

theorem eraseFirstWithPrefix_eq_filter (p : Option IpPrefix)
    (L : List IfAddress) (hnodup : (L.map IfAddress.getPrefix).Nodup)
    (hx : ∃ a ∈ L, IfAddress.getPrefix a = p) :
    FakeNetlinkProtocolSocket.eraseFirstWithPrefix p L =
      some (L.filter (prefixNe p)) := by
  induction L with
  | nil => simp at hx
  | cons a rest ih =>
    simp only [List.map_cons, List.nodup_cons] at hnodup
    rw [FakeNetlinkProtocolSocket.eraseFirstWithPrefix]
    by_cases ha : a.getPrefix = p
    · rw [if_pos ha]
      have hrest : ∀ b ∈ rest, prefixNe p b = true := by
        intro b hb
        simp only [prefixNe, Bool.not_eq_eq_eq_not, Bool.not_true,
          decide_eq_false_iff_not]
        intro hc
        refine hnodup.1 ?_
        rw [ha, ← hc]
        exact List.mem_map.mpr ⟨b, hb, rfl⟩
      have hcond : prefixNe p a = false := by
        simp [prefixNe, ha]
      rw [List.filter_cons, hcond]
      rw [List.filter_eq_self.mpr hrest]
      rfl
    · rw [if_neg ha]
      have hx2 : ∃ b ∈ rest, IfAddress.getPrefix b = p := by
        obtain ⟨b, hb, hbp⟩ := hx
        rcases List.mem_cons.mp hb with h2 | h2
        · exact absurd (h2 ▸ hbp) ha
        · exact ⟨b, h2, hbp⟩
      rw [ih hnodup.2 hx2, Option.map_some']
      have hcond : prefixNe p a = true := by
        simp [prefixNe, ha]
      rw [List.filter_cons, hcond, if_pos rfl]


theorem syncAddLoop_spec (i : Int) (sc : Nat) (C : List IpPrefix)
    (st : FakeState) (lst : List IfAddress) (D : List IpPrefix)
    (hget : alistGet i st.ifAddrs = some lst)
    (hD : D.Nodup)
    (habsent : ∀ d ∈ D, d ∉ C → ∀ a ∈ lst, IfAddress.getPrefix a ≠ some d) :
    ∃ st1, NetlinkSystemHandler.syncAddLoop i sc C st D =
      (st1, (D.filter (fun x => x ∉ C)).map (fun _ => (0 : Int)),
        D.filter (fun x => x ∉ C)) ∧
      st1.ifAddrs = alistInsert i
        (lst ++ (D.filter (fun x => x ∉ C)).map
          (fun d => (⟨i, some d, sc⟩ : IfAddress))) st.ifAddrs ∧
      st1.links = st.links ∧
      st1.unicastRoutes = st.unicastRoutes ∧
      st1.mplsRoutes = st.mplsRoutes := by
  induction D generalizing st lst with
  | nil =>
    refine ⟨st, rfl, ?_, rfl, rfl, rfl⟩
    rw [List.filter_nil, List.map_nil, List.append_nil,
      alistInsert_get_self _ _ _ hget]
  | cons d rest ih =>
    simp only [List.nodup_cons] at hD
    by_cases hdC : d ∈ C
    · have hfilter : (d :: rest).filter (fun x => decide (x ∉ C)) =
          rest.filter (fun x => decide (x ∉ C)) := by
        rw [List.filter_cons]
        simp [hdC]
      obtain ⟨st1, hloop, hifa, hl, hu, hm⟩ := ih st lst hget hD.2
        (fun x hx hxC => habsent x (List.mem_cons_of_mem d hx) hxC)
      have hstep : NetlinkSystemHandler.syncAddLoop i sc C st (d :: rest) =
          NetlinkSystemHandler.syncAddLoop i sc C st rest := by
        simp only [NetlinkSystemHandler.syncAddLoop]
        rw [if_pos hdC]
      refine ⟨st1, ?_, ?_, hl, hu, hm⟩
      · rw [hstep, hfilter]
        exact hloop
      · rw [hfilter]
        exact hifa
    · have hany : lst.any
          (fun b => decide (IfAddress.getPrefix b =
            some (toIPNetwork d))) = false := by
        rw [List.any_eq_false]
        intro b hb
        simp only [decide_eq_true_eq]
        exact fun hc => habsent d (List.mem_cons_self d rest) hdC b hb
          (by simpa [toIPNetwork] using hc)
      have hadd : FakeNetlinkProtocolSocket.addIfAddress st
          ⟨i, some (toIPNetwork d), sc⟩ =
          ({ st with
              ifAddrs :=
                alistModify i
                  (fun l => l ++ [⟨i, some (toIPNetwork d), sc⟩])
                  st.ifAddrs },
            0) := by
        simp [FakeNetlinkProtocolSocket.addIfAddress, hget, hany]
      have hmid : (alistModify i
          (fun l => l ++ [(⟨i, some (toIPNetwork d), sc⟩ : IfAddress)])
          st.ifAddrs) = alistInsert i
            (lst ++ [(⟨i, some (toIPNetwork d), sc⟩ : IfAddress)])
            st.ifAddrs :=
        alistModify_eq_insert _ _ _ _ hget
      have hget2 : alistGet i (alistModify i
          (fun l => l ++ [(⟨i, some (toIPNetwork d), sc⟩ : IfAddress)])
          st.ifAddrs) =
          some (lst ++ [(⟨i, some (toIPNetwork d), sc⟩ : IfAddress)]) := by
        rw [hmid]
        exact alistGet_insert_self _ _ _
      obtain ⟨st1, hloop, hifa, hl, hu, hm⟩ := ih
        ({ st with
            ifAddrs :=
              alistModify i
                (fun l => l ++ [(⟨i, some (toIPNetwork d), sc⟩ : IfAddress)])
                st.ifAddrs })
        (lst ++ [(⟨i, some (toIPNetwork d), sc⟩ : IfAddress)])
        hget2 hD.2
        (by
          intro x hx hxC b hb
          rcases List.mem_append.mp hb with h2 | h2
          · exact habsent x (List.mem_cons_of_mem d hx) hxC b h2
          · rw [List.mem_singleton] at h2
            subst h2
            intro hc
            have hc2 : some (toIPNetwork d) = some x := hc
            have hdx : d = x := by simpa [toIPNetwork] using hc2
            exact hD.1 (hdx ▸ hx))
      have hfilter : (d :: rest).filter (fun x => decide (x ∉ C)) =
          d :: rest.filter (fun x => decide (x ∉ C)) := by
        rw [List.filter_cons]
        simp [hdC]
      have hstep : NetlinkSystemHandler.syncAddLoop i sc C st (d :: rest) =
          (st1, (0 : Int) :: (rest.filter (fun x => x ∉ C)).map
            (fun _ => (0 : Int)), d :: rest.filter (fun x => x ∉ C)) := by
        simp only [NetlinkSystemHandler.syncAddLoop]
        rw [if_neg hdC, hadd]
        simp only [hloop]
      refine ⟨st1, ?_, ?_, hl, hu, hm⟩
      · rw [hstep, hfilter]
        rfl
      · rw [hifa, hmid, alistInsert_insert, hfilter]
        rw [List.map_cons, List.append_assoc, List.singleton_append]
        rfl

theorem syncDelLoop_spec (i : Int) (sc : Nat) (D : List IpPrefix)
    (st : FakeState) (L : List IfAddress) (Cl : List IpPrefix)
    (hget : alistGet i st.ifAddrs = some L)
    (hnodupL : (L.map IfAddress.getPrefix).Nodup)
    (hnodupC : Cl.Nodup)
    (hin : ∀ c ∈ Cl, c ∉ D → ∃ a ∈ L, IfAddress.getPrefix a = some c) :
    ∃ st1, NetlinkSystemHandler.syncDelLoop i sc D st Cl =
      (st1, (Cl.filter (fun x => x ∉ D)).map (fun _ => (0 : Int)),
        Cl.filter (fun x => x ∉ D)) ∧
      st1.ifAddrs = alistInsert i (L.filter (survivesDeletes Cl D))
        st.ifAddrs ∧
      st1.links = st.links ∧
      st1.unicastRoutes = st.unicastRoutes ∧
      st1.mplsRoutes = st.mplsRoutes := by
  induction Cl generalizing st L with
  | nil =>
    refine ⟨st, rfl, ?_, rfl, rfl, rfl⟩
    have hall : L.filter (survivesDeletes [] D) = L :=
      List.filter_eq_self.mpr (fun a _ => rfl)
    rw [hall, alistInsert_get_self _ _ _ hget]
  | cons c rest ih =>
    simp only [List.nodup_cons] at hnodupC
    by_cases hcD : c ∈ D
    · have hfilter : (c :: rest).filter (fun x => decide (x ∉ D)) =
          rest.filter (fun x => decide (x ∉ D)) := by
        rw [List.filter_cons]
        simp [hcD]
      have hsurv : ∀ a ∈ L, survivesDeletes (c :: rest) D a =
          survivesDeletes rest D a := by
        intro a _
        simp [survivesDeletes, List.all_cons, hcD]
      obtain ⟨st1, hloop, hifa, hl, hu, hm⟩ := ih st L hget hnodupL hnodupC.2
        (fun x hx hxD => hin x (List.mem_cons_of_mem c hx) hxD)
      have hstep : NetlinkSystemHandler.syncDelLoop i sc D st (c :: rest) =
          NetlinkSystemHandler.syncDelLoop i sc D st rest := by
        simp only [NetlinkSystemHandler.syncDelLoop]
        rw [if_pos hcD]
      refine ⟨st1, ?_, ?_, hl, hu, hm⟩
      · rw [hstep, hfilter]
        exact hloop
      · rw [hifa]
        refine congrArg (fun l2 => alistInsert i l2 st.ifAddrs) ?_
        exact (List.filter_congr hsurv).symm
    · obtain ⟨a0, ha0, hpa0⟩ := hin c (List.mem_cons_self c rest) hcD
      have herase : FakeNetlinkProtocolSocket.eraseFirstWithPrefix
          (some (toIPNetwork c)) L =
          some (L.filter (prefixNe (some c))) := by
        have h2 := eraseFirstWithPrefix_eq_filter (some c) L hnodupL
          ⟨a0, ha0, hpa0⟩
        simpa [toIPNetwork] using h2
      have hdel : FakeNetlinkProtocolSocket.deleteIfAddress st
          ⟨i, some (toIPNetwork c), sc⟩ =
          ({ st with
              ifAddrs :=
                alistInsert i (L.filter (prefixNe (some c))) st.ifAddrs },
            0) := by
        simp [FakeNetlinkProtocolSocket.deleteIfAddress, hget, herase]
      have hget2 : alistGet i (alistInsert i
          (L.filter (prefixNe (some c))) st.ifAddrs) =
          some (L.filter (prefixNe (some c))) :=
        alistGet_insert_self _ _ _
      have hnodupL2 : ((L.filter (prefixNe (some c))).map
          IfAddress.getPrefix).Nodup :=
        ((List.filter_sublist L).map IfAddress.getPrefix).nodup hnodupL
      obtain ⟨st1, hloop, hifa, hl, hu, hm⟩ := ih
        ({ st with
            ifAddrs :=
              alistInsert i (L.filter (prefixNe (some c))) st.ifAddrs })
        (L.filter (prefixNe (some c)))
        hget2 hnodupL2 hnodupC.2
        (by
          intro x hx hxD
          obtain ⟨b, hb, hbp⟩ := hin x (List.mem_cons_of_mem c hx) hxD
          refine ⟨b, List.mem_filter.mpr ⟨hb, ?_⟩, hbp⟩
          simp only [prefixNe, Bool.not_eq_eq_eq_not, Bool.not_true,
            decide_eq_false_iff_not, hbp, Option.some.injEq]
          intro hc
          exact hnodupC.1 (hc ▸ hx))
      have hfilter : (c :: rest).filter (fun x => decide (x ∉ D)) =
          c :: rest.filter (fun x => decide (x ∉ D)) := by
        rw [List.filter_cons]
        simp [hcD]
      have hstep : NetlinkSystemHandler.syncDelLoop i sc D st (c :: rest) =
          (st1, (0 : Int) :: (rest.filter (fun x => x ∉ D)).map
            (fun _ => (0 : Int)), c :: rest.filter (fun x => x ∉ D)) := by
        simp only [NetlinkSystemHandler.syncDelLoop]
        rw [if_neg hcD, hdel]
        simp only [hloop]
      refine ⟨st1, ?_, ?_, hl, hu, hm⟩
      · rw [hstep, hfilter]
        rfl
      · rw [hifa, alistInsert_insert, List.filter_filter]
        refine congrArg (fun l2 => alistInsert i l2 st.ifAddrs) ?_
        refine List.filter_congr ?_
        intro a _
        simp only [survivesDeletes, List.all_cons]
        rw [Bool.and_comm]
        congr 1
        simp [hcD]


/-- Counterexample to C1 as stated: interface 1 holds 192.168.1.1/24 under
host scope only. Syncing the universe-scope view to the desired set
[192.168.1.1/24] issues exactly the add for D \\ C and completes
successfully (the hidden address absorbs it as EEXIST), yet the
universe-scope address set afterwards is empty, not D. -/
theorem C1_counterexample_hidden_scope :
    NetlinkSystemHandler.semifuture_getIfaceAddresses Samples.stHidden
      Samples.eth0Name 0 0 = .ok [] ∧
    NetlinkSystemHandler.semifuture_syncIfaceAddresses Samples.stHidden
      Samples.eth0Name 0 0 [Samples.pfx192] =
      .ok (Samples.stHidden, [Samples.pfx192], []) ∧
    ([] : List IpPrefix) ≠ [Samples.pfx192] :=
  ⟨rfl, rfl, by decide⟩

/-- C1 (amended): provided every desired address neither hides behind an
address of the same prefix outside the filtered view (its prefix is
absent from the interface's full address list unless it is already in the
observed set C) nor fails a nonzero family filter, syncIfaceAddresses
issues adds exactly for D \\ C and deletes exactly for C \\ D, completes
successfully, and afterwards the interface's filtered address set equals
D. -/
theorem C1_sync_symmetric_difference (st : FakeState) (iface : String)
    (family scope : Nat) (D : List IpPrefix) (i : Int)
    (lst : List IfAddress) (C : List IpPrefix)
    (hwf : StateWF st)
    (hIdx : NetlinkSystemHandler.getIfIndex st iface = some i)
    (hlst : alistGet i st.ifAddrs = some lst)
    (hC : NetlinkSystemHandler.semifuture_getIfaceAddresses st iface family
      scope = .ok C)
    (hD : D.Nodup)
    (hfam : ∀ d ∈ D, family ≠ 0 → d.addr.family = family)
    (habsent : ∀ d ∈ D, d ∉ C → ∀ a ∈ lst, IfAddress.getPrefix a ≠ some d) :
    ∃ st1,
      NetlinkSystemHandler.semifuture_syncIfaceAddresses st iface family
        scope D =
        .ok (st1, D.filter (fun x => x ∉ C), C.filter (fun x => x ∉ D)) ∧
      ∃ res, NetlinkSystemHandler.semifuture_getIfaceAddresses st1 iface
          family scope = .ok res ∧
        res.Nodup ∧ (∀ p : IpPrefix, p ∈ res ↔ p ∈ D) := by
  obtain ⟨hkeysEq, hkeysNodup, hlinkKey, haddrKey, haddrSome, hpfxNodup⟩ := hwf
  have hlstMem : (i, lst) ∈ st.ifAddrs := alistGet_mem _ _ _ hlst
  have hlstKey : ∀ a ∈ lst, a.ifIndex = i :=
    fun a ha => haddrKey _ hlstMem a ha
  have hlstSome : ∀ a ∈ lst, (IfAddress.getPrefix a).isSome :=
    fun a ha => haddrSome _ hlstMem a ha
  have hlstNodup : (lst.map IfAddress.getPrefix).Nodup := hpfxNodup _ hlstMem
  have hfilterAll : NetlinkSystemHandler.filterIfaceAddresses i family scope
      (FakeNetlinkProtocolSocket.getAllIfAddresses st) =
      .ok ((FakeNetlinkProtocolSocket.getAllIfAddresses st).filterMap
        (fun a => if NetlinkSystemHandler.addrFilterOk i family scope a
          then a.getPrefix else none)) :=
    filterIfaceAddresses_eq_ok _ _ _ _ (by
      intro a ha _
      obtain ⟨p, hp, hap⟩ := (mem_getAllIfAddresses st a).mp ha
      exact haddrSome p hp a hap)
  have hCeq : NetlinkSystemHandler.semifuture_getIfaceAddresses st iface
      family scope =
      .ok ((FakeNetlinkProtocolSocket.getAllIfAddresses st).filterMap
        (fun a => if NetlinkSystemHandler.addrFilterOk i family scope a
          then a.getPrefix else none)) := by
    unfold NetlinkSystemHandler.semifuture_getIfaceAddresses
    rw [hIdx]
    exact hfilterAll
  have hCval : C = lst.filterMap
      (fun a => if NetlinkSystemHandler.addrFilterOk i family scope a
        then a.getPrefix else none) := by
    rw [hCeq] at hC
    rw [← Except.ok.inj hC]
    exact filterMap_flatten_entry st.ifAddrs i lst _ haddrKey hkeysNodup hlst
      (fun a hai => if_neg (fun hok => hai hok.1))
  have hCnodup : C.Nodup := by
    rw [hCval]
    refine filterMap_pfx_nodup lst _ ?_ hlstNodup
    intro a
    by_cases hok : NetlinkSystemHandler.addrFilterOk i family scope a
    · exact Or.inr (if_pos hok)
    · exact Or.inl (if_neg hok)
  have hCmem : ∀ c ∈ C, ∃ a ∈ lst, IfAddress.getPrefix a = some c ∧
      (if NetlinkSystemHandler.addrFilterOk i family scope a
        then IfAddress.getPrefix a else none) = some c := by
    intro c hc
    rw [hCval] at hc
    obtain ⟨a, ha, hfa⟩ := List.mem_filterMap.mp hc
    by_cases hok : NetlinkSystemHandler.addrFilterOk i family scope a
    · rw [if_pos hok] at hfa
      exact ⟨a, ha, hfa, by rw [if_pos hok]; exact hfa⟩
    · rw [if_neg hok] at hfa
      exact Option.noConfusion hfa
  obtain ⟨stA, hA, hAifa, hAl, hAu, hAm⟩ :=
    syncAddLoop_spec i scope C st lst D hlst hD habsent
  have hgetA : alistGet i stA.ifAddrs =
      some (lst ++ (D.filter (fun x => x ∉ C)).map
        (fun d => (⟨i, some d, scope⟩ : IfAddress))) := by
    rw [hAifa]
    exact alistGet_insert_self _ _ _
  have hrecNodup : (((D.filter (fun x => x ∉ C)).map
      (fun d => (⟨i, some d, scope⟩ : IfAddress))).map
        IfAddress.getPrefix).Nodup := by
    rw [List.map_map]
    have h2 : (IfAddress.getPrefix ∘ fun d => (⟨i, some d, scope⟩ : IfAddress)) =
        (fun d => some d) := rfl
    rw [h2]
    exact (hD.filter _).map (Option.some_injective _)
  have hL2nodup : ((lst ++ (D.filter (fun x => x ∉ C)).map
      (fun d => (⟨i, some d, scope⟩ : IfAddress))).map
        IfAddress.getPrefix).Nodup := by
    rw [List.map_append]
    refine hlstNodup.append hrecNodup ?_
    intro x hx1 hx2
    obtain ⟨a, ha, rfl⟩ := List.mem_map.mp hx1
    obtain ⟨b, hb, hbx⟩ := List.mem_map.mp hx2
    obtain ⟨d, hd, rfl⟩ := List.mem_map.mp hb
    have hdD : d ∈ D := List.mem_of_mem_filter hd
    have hdC : d ∉ C := by
      have h2 := List.of_mem_filter hd
      simpa using h2
    refine habsent d hdD hdC a ha ?_
    rw [← hbx]
  have hinDel : ∀ c ∈ C, c ∉ D →
      ∃ a ∈ lst ++ (D.filter (fun x => x ∉ C)).map
        (fun d => (⟨i, some d, scope⟩ : IfAddress)),
        IfAddress.getPrefix a = some c := by
    intro c hc _
    obtain ⟨a, ha, hpa, -⟩ := hCmem c hc
    exact ⟨a, List.mem_append_left _ ha, hpa⟩
  obtain ⟨stB, hB, hBifa, hBl, hBu, hBm⟩ :=
    syncDelLoop_spec i scope D stA
      (lst ++ (D.filter (fun x => x ∉ C)).map
        (fun d => (⟨i, some d, scope⟩ : IfAddress))) C
      hgetA hL2nodup hCnodup hinDel
  have hsync : NetlinkSystemHandler.semifuture_syncIfaceAddresses st iface
      family scope D =
      (NetlinkSystemHandler.collectRetvals
        ((D.filter (fun x => x ∉ C)).map (fun _ => (0 : Int)) ++
          (C.filter (fun x => x ∉ D)).map (fun _ => (0 : Int)))).map
        (fun _ => (stB, D.filter (fun x => x ∉ C),
          C.filter (fun x => x ∉ D))) := by
    simp only [NetlinkSystemHandler.semifuture_syncIfaceAddresses, hIdx, hC,
      hA, hB]
  have hrets : NetlinkSystemHandler.collectRetvals
      ((D.filter (fun x => x ∉ C)).map (fun _ => (0 : Int)) ++
        (C.filter (fun x => x ∉ D)).map (fun _ => (0 : Int))) = .ok () := by
    rw [collectRetvals_ok_iff]
    intro r hr
    rcases List.mem_append.mp hr with h2 | h2 <;>
    · obtain ⟨x, hx, rfl⟩ := List.mem_map.mp h2
      left
      exact abs_zero
  have hBifa2 : stB.ifAddrs = alistInsert i
      ((lst ++ (D.filter (fun x => x ∉ C)).map
        (fun d => (⟨i, some d, scope⟩ : IfAddress))).filter
          (survivesDeletes C D)) st.ifAddrs := by
    rw [hBifa, hAifa, alistInsert_insert]
  have hIdxB : NetlinkSystemHandler.getIfIndex stB iface = some i := by
    unfold NetlinkSystemHandler.getIfIndex
      FakeNetlinkProtocolSocket.getAllLinks
    rw [hBl, hAl]
    exact hIdx
  have hkeysB : stB.ifAddrs.map Prod.fst = st.ifAddrs.map Prod.fst := by
    rw [hBifa2]
    refine alistInsert_map_fst_of_mem _ _ _ ?_
    rw [← alistGet_isSome_iff, hlst]
    rfl
  have hLfinSub : ((lst ++ (D.filter (fun x => x ∉ C)).map
      (fun d => (⟨i, some d, scope⟩ : IfAddress))).filter
        (survivesDeletes C D)).Sublist
      (lst ++ (D.filter (fun x => x ∉ C)).map
        (fun d => (⟨i, some d, scope⟩ : IfAddress))) :=
    List.filter_sublist _
  have hLfinKey : ∀ a ∈ (lst ++ (D.filter (fun x => x ∉ C)).map
      (fun d => (⟨i, some d, scope⟩ : IfAddress))).filter
        (survivesDeletes C D), a.ifIndex = i := by
    intro a ha
    rcases List.mem_append.mp (List.mem_of_mem_filter ha) with h2 | h2
    · exact hlstKey a h2
    · obtain ⟨d, hd, rfl⟩ := List.mem_map.mp h2
      rfl
  have haddrKeyB : ∀ p ∈ stB.ifAddrs, ∀ a ∈ p.2, a.ifIndex = p.1 := by
    intro p hp a ha
    rw [hBifa2] at hp
    rcases alistInsert_mem _ _ _ _ hp with h2 | h2
    · subst h2
      exact hLfinKey a ha
    · exact haddrKey p h2 a ha
  have haddrSomeB : ∀ a ∈ FakeNetlinkProtocolSocket.getAllIfAddresses stB,
      (IfAddress.getPrefix a).isSome := by
    intro a ha
    obtain ⟨p, hp, hap⟩ := (mem_getAllIfAddresses stB a).mp ha
    rw [hBifa2] at hp
    rcases alistInsert_mem _ _ _ _ hp with h2 | h2
    · subst h2
      rcases List.mem_append.mp (List.mem_of_mem_filter hap) with h3 | h3
      · exact hlstSome a h3
      · obtain ⟨d, hd, rfl⟩ := List.mem_map.mp h3
        rfl
    · exact haddrSome p h2 a hap
  have hgetB : alistGet i stB.ifAddrs =
      some ((lst ++ (D.filter (fun x => x ∉ C)).map
        (fun d => (⟨i, some d, scope⟩ : IfAddress))).filter
          (survivesDeletes C D)) := by
    rw [hBifa2]
    exact alistGet_insert_self _ _ _
  have hresEq : NetlinkSystemHandler.semifuture_getIfaceAddresses stB iface
      family scope =
      .ok (((lst ++ (D.filter (fun x => x ∉ C)).map
        (fun d => (⟨i, some d, scope⟩ : IfAddress))).filter
          (survivesDeletes C D)).filterMap
        (fun a => if NetlinkSystemHandler.addrFilterOk i family scope a
          then a.getPrefix else none)) := by
    unfold NetlinkSystemHandler.semifuture_getIfaceAddresses
    rw [hIdxB]
    have h2 := filterIfaceAddresses_eq_ok i family scope
      (FakeNetlinkProtocolSocket.getAllIfAddresses stB)
      (fun a ha _ => haddrSomeB a ha)
    have h3 := filterMap_flatten_entry stB.ifAddrs i
      ((lst ++ (D.filter (fun x => x ∉ C)).map
        (fun d => (⟨i, some d, scope⟩ : IfAddress))).filter
          (survivesDeletes C D))
      (fun a => if NetlinkSystemHandler.addrFilterOk i family scope a
        then a.getPrefix else none)
      haddrKeyB (hkeysB ▸ hkeysNodup) hgetB
      (fun a hai => if_neg (fun hok => hai hok.1))
    exact h2.trans (congrArg Except.ok h3)
  refine ⟨stB, ?_, ?_⟩
  · rw [hsync, hrets]
    rfl
  · refine ⟨_, hresEq, ?_, ?_⟩
    · refine filterMap_pfx_nodup _ _ ?_ ((hLfinSub.map IfAddress.getPrefix).nodup hL2nodup)
      intro a
      by_cases hok : NetlinkSystemHandler.addrFilterOk i family scope a
      · exact Or.inr (if_pos hok)
      · exact Or.inl (if_neg hok)
    · intro p
      constructor
      · intro hp
        obtain ⟨a, ha, hfa⟩ := List.mem_filterMap.mp hp
        have hpre : IfAddress.getPrefix a = some p := by
          by_cases hok : NetlinkSystemHandler.addrFilterOk i family scope a
          · rw [if_pos hok] at hfa
            exact hfa
          · rw [if_neg hok] at hfa
            exact Option.noConfusion hfa
        have hsurv : survivesDeletes C D a = true := List.of_mem_filter ha
        rcases List.mem_append.mp (List.mem_of_mem_filter ha) with h2 | h2
        · have hpC : p ∈ C := by
            rw [hCval]
            exact List.mem_filterMap.mpr ⟨a, h2, hfa⟩
          by_contra hpD
          simp only [survivesDeletes, List.all_eq_true] at hsurv
          have h3 := hsurv p hpC
          simp [hpD, prefixNe, hpre] at h3
        · obtain ⟨d, hd, rfl⟩ := List.mem_map.mp h2
          have hdp : d = p := by
            have h3 : some d = some p := hpre
            exact Option.some.inj h3
          exact hdp ▸ List.mem_of_mem_filter hd
      · intro hpD
        by_cases hpC : p ∈ C
        · obtain ⟨a, ha, hpa, hfa⟩ := hCmem p hpC
          refine List.mem_filterMap.mpr ⟨a, ?_, hfa⟩
          refine List.mem_filter.mpr ⟨List.mem_append_left _ ha, ?_⟩
          simp only [survivesDeletes, List.all_eq_true]
          intro c hcC
          by_cases hcD2 : c ∈ D
          · simp [hcD2]
          · have hne : ¬(p = c) := fun hc => hcD2 (by rw [← hc]; exact hpD)
            simp [prefixNe, hpa, hcD2, hne]
        · have hrec : (⟨i, some p, scope⟩ : IfAddress) ∈
              (D.filter (fun x => x ∉ C)).map
                (fun d => (⟨i, some d, scope⟩ : IfAddress)) :=
            List.mem_map.mpr ⟨p, List.mem_filter.mpr ⟨hpD, by simp [hpC]⟩, rfl⟩
          refine List.mem_filterMap.mpr ⟨⟨i, some p, scope⟩, ?_, ?_⟩
          · refine List.mem_filter.mpr ⟨List.mem_append_right _ hrec, ?_⟩
            simp only [survivesDeletes, List.all_eq_true]
            intro c hcC
            by_cases hcD2 : c ∈ D
            · simp [hcD2]
            · have hne : ¬(p = c) := fun hc => hpC (by rw [hc]; exact hcC)
              simp [prefixNe, hne, hcD2]
          · have hok : NetlinkSystemHandler.addrFilterOk i family scope
                ⟨i, some p, scope⟩ := by
              refine ⟨rfl, ?_, rfl⟩
              by_cases hf0 : family = 0
              · exact Or.inl hf0
              · exact Or.inr (hfam p hpD hf0)
            rw [if_pos hok]


/-- Witness for the amended C1 at `st1`: desired set [192.168.1.1/24]
against current view [10.0.0.1/24] — one add, one delete, final view
equal to the desired set. -/
theorem C1_sync_symmetric_difference_witness :
    (StateWF Samples.st1 ∧
      NetlinkSystemHandler.getIfIndex Samples.st1 Samples.eth0Name = some 1 ∧
      alistGet (1 : Int) Samples.st1.ifAddrs = some [Samples.addrEth0] ∧
      NetlinkSystemHandler.semifuture_getIfaceAddresses Samples.st1
        Samples.eth0Name 0 0 = .ok [Samples.pfx10001] ∧
      ([Samples.pfx192] : List IpPrefix).Nodup ∧
      (∀ d ∈ [Samples.pfx192], (0 : Nat) ≠ 0 → d.addr.family = 0) ∧
      (∀ d ∈ [Samples.pfx192], d ∉ [Samples.pfx10001] →
        ∀ a ∈ [Samples.addrEth0], IfAddress.getPrefix a ≠ some d)) ∧
    (∃ st1,
      NetlinkSystemHandler.semifuture_syncIfaceAddresses Samples.st1
        Samples.eth0Name 0 0 [Samples.pfx192] =
        .ok (st1, [Samples.pfx192].filter (fun x => x ∉ [Samples.pfx10001]),
          [Samples.pfx10001].filter (fun x => x ∉ [Samples.pfx192])) ∧
      ∃ res, NetlinkSystemHandler.semifuture_getIfaceAddresses st1
          Samples.eth0Name 0 0 = .ok res ∧
        res.Nodup ∧ (∀ p : IpPrefix, p ∈ res ↔ p ∈ [Samples.pfx192])) := by
  refine ⟨⟨⟨by decide, by decide, by decide, by decide, by decide, by decide⟩,
    by decide, by decide, by rfl, by decide, by decide, by decide⟩, ?_⟩
  exact C1_sync_symmetric_difference Samples.st1 Samples.eth0Name 0 0
    [Samples.pfx192] 1 [Samples.addrEth0] [Samples.pfx10001]
    ⟨by decide, by decide, by decide, by decide, by decide, by decide⟩
    (by decide) (by decide) (by rfl) (by decide) (by decide) (by decide)

end openr
